import Mathlib

/-!
Verification of the LaunchForge configuration-embedding subsystem.

This file gives a shallow embedding, in Lean 4, of the parts of the
LaunchForge code base that the specification talks about:

* `src/utils/embedding_utils.py` — the marker-based embed / extract / verify
  protocol over raw bytes (modelled as `List Nat`, one entry per byte), and
  the JSON round trip it relies on (Python's `json.dumps(…, indent=2)`,
  `json.dumps(…, sort_keys=True)` and `json.loads`, modelled over a `Json`
  syntax tree covering null, booleans, integers, strings, arrays, objects);
* `src/models/config_model.py` — `ModConfig` / `LauncherConfig` and their
  `to_dict` / `from_dict` serialization, with `datetime.now()` passed in
  as an explicit argument and `uuid.uuid4()` as an explicit fresh token;
* `src/builder/validator.py` — `validate_config`, `_is_valid_version`,
  `_is_valid_url`, with the Python regexes translated to executable
  predicates over character lists;
* `src/builder/builder_engine.py` — the progress-reporting trace of
  `BuilderEngine.build` / `_build_executable`, with the outcomes of the
  external world (file system, PyInstaller) passed in as an environment;
* `src/models/constants.py` — the template path and executable-extension
  constants used by the builder.

File I/O is abstracted in the usual way: a function that reads a file takes
the file's bytes as an argument, a function that writes returns the bytes.
Model restrictions (noted where relevant): JSON numbers cover integers only,
JSON strings are sequences of Unicode scalar values (no lone surrogates),
and whitespace sets are the ASCII ones Python's `json` module uses.
-/

namespace LaunchForge


/-! ## Byte strings and substring search

Bytes are `Nat`s (always < 256 in practice; nothing below depends on the
bound).  `leadsWith pat s` is Python's `s.startswith(pat)`;
`subFind pat s` is `s.find(pat)` returning `none` for `-1`, and
`subFindFrom pat s i` is `s.find(pat, i)`.
-/

/-- Boolean test that `pat` is an initial segment of `s`. -/
def leadsWith : List Nat → List Nat → Bool
  | [], _ => true
  | _ :: _, [] => false
  | a :: as, b :: bs => a = b && leadsWith as bs

/-- Propositional form: `pat` is an initial segment of `s`. -/
def LeadsWith (pat s : List Nat) : Prop := ∃ t, pat ++ t = s

/-- Index of the first occurrence of `pat` in `s` (Python `s.find(pat)`,
with `none` for "not found"). -/
def subFind (pat : List Nat) : List Nat → Option Nat
  | [] => if pat = [] then some 0 else none
  | b :: t => if leadsWith pat (b :: t) then some 0 else (subFind pat t).map (· + 1)

/-- Python `s.find(pat, i)`: first occurrence at index `≥ i`. -/
def subFindFrom (pat s : List Nat) (i : Nat) : Option Nat :=
  (subFind pat (s.drop i)).map (· + i)

/-- A pattern with no nonempty proper border: no proper nonempty prefix of
`pat` is also a suffix.  Both markers have this property. -/
def Unbordered (pat : List Nat) : Prop :=
  ∀ k < pat.length, 0 < k → pat.take k ≠ pat.drop (pat.length - k)

instance (pat : List Nat) : Decidable (Unbordered pat) := by
  unfold Unbordered; infer_instance

/-- "No occurrence of `pat` anywhere in `s`". -/
def NoOccur (pat s : List Nat) : Prop := ∀ j, ¬ LeadsWith pat (s.drop j)

/-! ## JSON values

A syntax tree for the JSON documents the configuration system handles.
Numbers are integers (the configuration model never produces floats) and
object fields are kept in insertion order, as Python dicts do.  `JArr` and
`JObj` are unrolled list types so that the whole family is a plain mutual
inductive. -/

mutual
inductive Json : Type where
  | null : Json
  | boolean : Bool → Json
  | num : Int → Json
  | str : List Char → Json
  | arr : JArr → Json
  | obj : JObj → Json
deriving DecidableEq
inductive JArr : Type where
  | nil : JArr
  | cons : Json → JArr → JArr
deriving DecidableEq
inductive JObj : Type where
  | nil : JObj
  | cons : List Char → Json → JObj → JObj
deriving DecidableEq
end


def jarr : List Json → JArr
  | [] => .nil
  | x :: r => .cons x (jarr r)

def jobj : List (List Char × Json) → JObj
  | [] => .nil
  | (k, v) :: r => .cons k v (jobj r)

def JArr.toList : JArr → List Json
  | .nil => []
  | .cons x r => x :: r.toList

/-- First binding for a key, like a Python dict lookup (keys are unique in
any object a Python dict produces). -/
def JObj.lookup (k : List Char) : JObj → Option Json
  | .nil => none
  | .cons k' v r => if k = k' then some v else JObj.lookup k r

/-! ## Serialization: `json.dumps`

`dumpsV lvl` is `json.dumps(…, indent=2)` at indent level `lvl` (the
top-level call is `dumps0`); `dumpsC` is `json.dumps(…)` with the default
`(', ', ': ')` separators, and `dumpsCanon` is
`json.dumps(…, sort_keys=True)` as used by `verify_embedding`.
`ensure_ascii` is on by default, so every non-ASCII character is written as
a `\uXXXX` escape (with surrogate pairs above U+FFFF) and the output is
pure ASCII. -/

def digitChar (d : Nat) : Char := Char.ofNat (48 + d)

def hexDigitChar (d : Nat) : Char :=
  if d < 10 then Char.ofNat (48 + d) else Char.ofNat (87 + d)

def hex4 (n : Nat) : List Char :=
  [hexDigitChar (n / 4096), hexDigitChar (n / 256 % 16),
   hexDigitChar (n / 16 % 16), hexDigitChar (n % 16)]

def natDigitsAux : Nat → Nat → List Char → List Char
  | 0, _, acc => acc
  | fuel + 1, n, acc =>
    if n < 10 then digitChar n :: acc
    else natDigitsAux fuel (n / 10) (digitChar (n % 10) :: acc)

/-- Decimal digits of a natural number, most significant first (the fuel
`n + 1` always suffices since `n / 10 < n`). -/
def natDigits (n : Nat) : List Char := natDigitsAux (n + 1) n []

/-- Python's decimal rendering of an int. -/
def intToChars (i : Int) : List Char :=
  if i < 0 then '-' :: natDigits (-i).toNat else natDigits i.toNat

/-- One character of a JSON string literal, as `json.dumps` writes it with
`ensure_ascii=True`. -/
def escChar (c : Char) : List Char :=
  if c = '"' then ['\\', '"']
  else if c = '\\' then ['\\', '\\']
  else if c = '\x08' then ['\\', 'b']
  else if c = '\x0c' then ['\\', 'f']
  else if c = '\n' then ['\\', 'n']
  else if c = '\r' then ['\\', 'r']
  else if c = '\t' then ['\\', 't']
  else if 0x20 ≤ c.toNat ∧ c.toNat ≤ 0x7e then [c]
  else if c.toNat < 0x10000 then '\\' :: 'u' :: hex4 c.toNat
  else
    ('\\' :: 'u' :: hex4 (0xd800 + (c.toNat - 0x10000) / 0x400)) ++
      ('\\' :: 'u' :: hex4 (0xdc00 + (c.toNat - 0x10000) % 0x400))

/-- Body of a string literal including the closing quote. -/
def escBody : List Char → List Char
  | [] => ['"']
  | c :: r => escChar c ++ escBody r

/-- Newline plus two-space indentation at nesting level `k`. -/
def nlInd (k : Nat) : List Char := '\n' :: List.replicate (2 * k) ' '

mutual
def dumpsV : Nat → Json → List Char
  | _, .null => ['n', 'u', 'l', 'l']
  | _, .boolean true => ['t', 'r', 'u', 'e']
  | _, .boolean false => ['f', 'a', 'l', 's', 'e']
  | _, .num n => intToChars n
  | _, .str cs => '"' :: escBody cs
  | _, .arr .nil => ['[', ']']
  | lvl, .arr (.cons x t) =>
      '[' :: (nlInd (lvl + 1) ++ dumpsV (lvl + 1) x ++ dumpsATail lvl t)
  | _, .obj .nil => ['{', '}']
  | lvl, .obj (.cons k v t) =>
      '{' :: (nlInd (lvl + 1) ++ ('"' :: escBody k) ++ ':' :: ' ' ::
        (dumpsV (lvl + 1) v ++ dumpsOTail lvl t))
def dumpsATail : Nat → JArr → List Char
  | lvl, .nil => nlInd lvl ++ [']']
  | lvl, .cons x t =>
      ',' :: (nlInd (lvl + 1) ++ dumpsV (lvl + 1) x ++ dumpsATail lvl t)
def dumpsOTail : Nat → JObj → List Char
  | lvl, .nil => nlInd lvl ++ ['}']
  | lvl, .cons k v t =>
      ',' :: (nlInd (lvl + 1) ++ ('"' :: escBody k) ++ ':' :: ' ' ::
        (dumpsV (lvl + 1) v ++ dumpsOTail lvl t))
end


/-- `json.dumps(config_data, indent=2)` as called by `embed_config`. -/
def dumps0 (j : Json) : List Char := dumpsV 0 j

mutual
def dumpsC : Json → List Char
  | .null => ['n', 'u', 'l', 'l']
  | .boolean true => ['t', 'r', 'u', 'e']
  | .boolean false => ['f', 'a', 'l', 's', 'e']
  | .num n => intToChars n
  | .str cs => '"' :: escBody cs
  | .arr .nil => ['[', ']']
  | .arr (.cons x t) => '[' :: (dumpsC x ++ dumpsCATail t)
  | .obj .nil => ['{', '}']
  | .obj (.cons k v t) =>
      '{' :: (('"' :: escBody k) ++ ':' :: ' ' :: (dumpsC v ++ dumpsCOTail t))
def dumpsCATail : JArr → List Char
  | .nil => [']']
  | .cons x t => ',' :: ' ' :: (dumpsC x ++ dumpsCATail t)
def dumpsCOTail : JObj → List Char
  | .nil => ['}']
  | .cons k v t =>
      ',' :: ' ' :: (('"' :: escBody k) ++ ':' :: ' ' :: (dumpsC v ++ dumpsCOTail t))
end


/-- Python string comparison (used by `sorted` on dict keys): lexicographic
on code points. -/
def lexLe : List Char → List Char → Bool
  | [], _ => true
  | _ :: _, [] => false
  | a :: as, b :: bs =>
      if a.toNat < b.toNat then true
      else if b.toNat < a.toNat then false
      else lexLe as bs

/-- Insert a binding into a key-sorted object (stable insertion sort step). -/
def insertPair (k : List Char) (v : Json) : JObj → JObj
  | .nil => .cons k v .nil
  | .cons k' v' t =>
      if lexLe k k' then .cons k v (.cons k' v' t)
      else .cons k' v' (insertPair k v t)

mutual
def sortKeysJ : Json → Json
  | .null => .null
  | .boolean b => .boolean b
  | .num n => .num n
  | .str cs => .str cs
  | .arr a => .arr (sortKeysA a)
  | .obj o => .obj (sortKeysO o)
def sortKeysA : JArr → JArr
  | .nil => .nil
  | .cons x t => .cons (sortKeysJ x) (sortKeysA t)
def sortKeysO : JObj → JObj
  | .nil => .nil
  | .cons k v t => insertPair k (sortKeysJ v) (sortKeysO t)
end


/-- `json.dumps(j, sort_keys=True)`, the canonical form `verify_embedding`
compares. -/
def dumpsCanon (j : Json) : List Char := dumpsC (sortKeysJ j)

/-! ## Parsing: `json.loads`

An executable model of Python's JSON decoder for the documents above:
JSON whitespace is `[ \t\n\r]`, string escapes follow `py_scanstring`
(strict mode: raw control characters are rejected; `\uXXXX` escapes with
surrogate pairs are combined — lone surrogates, which Lean's `Char` cannot
represent, are rejected), numbers follow the scanner's
`(-?(?:0|[1-9]\d*))` integer rule, and a trailing fraction/exponent
(a float) is out of the model and rejected.  The value scanner is given
fuel; `loads` passes enough for any input it can succeed on. -/

def isWsChar (c : Char) : Bool :=
  decide (c.toNat = 32 ∨ c.toNat = 9 ∨ c.toNat = 10 ∨ c.toNat = 13)

def skipWs : List Char → List Char
  | [] => []
  | c :: r => if isWsChar c then skipWs r else c :: r

def isDigitCh (c : Char) : Bool := decide (48 ≤ c.toNat ∧ c.toNat ≤ 57)

def hexVal (c : Char) : Option Nat :=
  if 48 ≤ c.toNat ∧ c.toNat ≤ 57 then some (c.toNat - 48)
  else if 97 ≤ c.toNat ∧ c.toNat ≤ 102 then some (c.toNat - 87)
  else if 65 ≤ c.toNat ∧ c.toNat ≤ 70 then some (c.toNat - 55)
  else none

def parseHex4 (a b c d : Char) : Option Nat :=
  match hexVal a, hexVal b, hexVal c, hexVal d with
  | some x, some y, some z, some w => some (x * 4096 + y * 256 + z * 16 + w)
  | _, _, _, _ => none

/-- The single-character escapes of `json.decoder.BACKSLASH`. -/
def escMap (e : Char) : Option Char :=
  if e = '"' then some '"'
  else if e = '\\' then some '\\'
  else if e = '/' then some '/'
  else if e = 'b' then some '\x08'
  else if e = 'f' then some '\x0c'
  else if e = 'n' then some '\n'
  else if e = 'r' then some '\r'
  else if e = 't' then some '\t'
  else none

mutual
/-- String scanner, positioned after the opening quote. -/
def parseStr : List Char → Option (List Char × List Char)
  | [] => none
  | c :: r =>
    if c = '"' then some ([], r)
    else if c = '\\' then parseEsc r
    else if c.toNat < 0x20 then none
    else (parseStr r).map (fun p => (c :: p.1, p.2))
/-- Escape scanner, positioned after a backslash. -/
def parseEsc : List Char → Option (List Char × List Char)
  | [] => none
  | e :: r2 =>
    if e = 'u' then parseU r2
    else
      match escMap e with
      | none => none
      | some c => (parseStr r2).map (fun p => (c :: p.1, p.2))
/-- Four hex digits of a `\uXXXX` escape. -/
def parseU : List Char → Option (List Char × List Char)
  | h1 :: h2 :: h3 :: h4 :: r2 =>
    match parseHex4 h1 h2 h3 h4 with
    | none => none
    | some n =>
      if 0xd800 ≤ n ∧ n < 0xdc00 then parseU2 n r2
      else if 0xdc00 ≤ n ∧ n < 0xe000 then none
      else (parseStr r2).map (fun p => (Char.ofNat n :: p.1, p.2))
  | _ => none
/-- After a high surrogate: a backslash must follow. -/
def parseU2 (n : Nat) : List Char → Option (List Char × List Char)
  | [] => none
  | b :: r2 => if b = '\\' then parseU3 n r2 else none
/-- After a high surrogate and backslash: a `u` must follow. -/
def parseU3 (n : Nat) : List Char → Option (List Char × List Char)
  | [] => none
  | u :: r2 => if u = 'u' then parseU4 n r2 else none
/-- Low surrogate half: four hex digits, combined into one scalar. -/
def parseU4 (n : Nat) : List Char → Option (List Char × List Char)
  | k1 :: k2 :: k3 :: k4 :: r3 =>
    match parseHex4 k1 k2 k3 k4 with
    | none => none
    | some m =>
      if 0xdc00 ≤ m ∧ m < 0xe000 then
        (parseStr r3).map (fun p =>
          (Char.ofNat (0x10000 + (n - 0xd800) * 0x400 + (m - 0xdc00)) :: p.1, p.2))
      else none
  | _ => none
end


def takeDigits : List Char → List Char
  | [] => []
  | c :: r => if isDigitCh c then c :: takeDigits r else []

def dropDigits : List Char → List Char
  | [] => []
  | c :: r => if isDigitCh c then dropDigits r else c :: r

def digitsVal (l : List Char) : Nat := l.foldl (fun a c => 10 * a + (c.toNat - 48)) 0

/-- Reject a following fraction or exponent: that would be a float, which
the model does not cover (the scanner would produce one where this model
stops). -/
def checkNoFloat (n : Nat) (rest : List Char) : Option (Nat × List Char) :=
  match rest with
  | [] => some (n, [])
  | c :: _ => if c = '.' ∨ c = 'e' ∨ c = 'E' then none else some (n, rest)

/-- Integer part per the scanner's `(0|[1-9]\d*)`. -/
def parseUInt : List Char → Option (Nat × List Char)
  | [] => none
  | c :: r =>
    if c = '0' then checkNoFloat 0 r
    else if isDigitCh c then checkNoFloat (digitsVal (c :: takeDigits r)) (dropDigits r)
    else none

def parseNumber : List Char → Option (Int × List Char)
  | [] => none
  | c :: r =>
    if c = '-' then (parseUInt r).map (fun p => (-(p.1 : Int), p.2))
    else (parseUInt (c :: r)).map (fun p => ((p.1 : Int), p.2))

/-- Strip an expected literal keyword. -/
def stripPre : List Char → List Char → Option (List Char)
  | [], r => some r
  | _ :: _, [] => none
  | k :: ks, c :: r => if c = k then stripPre ks r else none

mutual
def parseValue : Nat → List Char → Option (Json × List Char)
  | 0, _ => none
  | _ + 1, [] => none
  | fuel + 1, c :: r =>
      if c = '"' then (parseStr r).map (fun p => (Json.str p.1, p.2))
      else if c = '{' then parseObjBody fuel (skipWs r)
      else if c = '[' then parseArrBody fuel (skipWs r)
      else if c = 'n' then (stripPre ['u', 'l', 'l'] r).map (fun r2 => (Json.null, r2))
      else if c = 't' then (stripPre ['r', 'u', 'e'] r).map (fun r2 => (Json.boolean true, r2))
      else if c = 'f' then
        (stripPre ['a', 'l', 's', 'e'] r).map (fun r2 => (Json.boolean false, r2))
      else (parseNumber (c :: r)).map (fun p => (Json.num p.1, p.2))
/-- Inside `{`, after whitespace: empty object or members. -/
def parseObjBody : Nat → List Char → Option (Json × List Char)
  | 0, _ => none
  | _ + 1, [] => none
  | fuel + 1, d :: r2 =>
      if d = '}' then some (Json.obj .nil, r2)
      else (parseObjPairs fuel (d :: r2)).map (fun p => (Json.obj p.1, p.2))
/-- Inside `[`, after whitespace: empty array or elements. -/
def parseArrBody : Nat → List Char → Option (Json × List Char)
  | 0, _ => none
  | _ + 1, [] => none
  | fuel + 1, d :: r2 =>
      if d = ']' then some (Json.arr .nil, r2)
      else (parseArrElems fuel (d :: r2)).map (fun p => (Json.arr p.1, p.2))
/-- Object members, positioned at the opening quote of a key. -/
def parseObjPairs : Nat → List Char → Option (JObj × List Char)
  | 0, _ => none
  | _ + 1, [] => none
  | fuel + 1, c :: r =>
      if c = '"' then (parseStr r).bind (fun p => parseAfterKey fuel p.1 (skipWs p.2))
      else none
/-- After an object key: expect a colon, then the value. -/
def parseAfterKey : Nat → List Char → List Char → Option (JObj × List Char)
  | 0, _, _ => none
  | _ + 1, _, [] => none
  | fuel + 1, k, d :: r2 =>
      if d = ':' then
        (parseValue fuel (skipWs r2)).bind (fun p => parseAfterVal fuel k p.1 (skipWs p.2))
      else none
/-- After an object member: closing brace or comma. -/
def parseAfterVal : Nat → List Char → Json → List Char → Option (JObj × List Char)
  | 0, _, _, _ => none
  | _ + 1, _, _, [] => none
  | fuel + 1, k, v, e :: r4 =>
      if e = '}' then some (.cons k v .nil, r4)
      else if e = ',' then
        (parseObjPairs fuel (skipWs r4)).map (fun p => (JObj.cons k v p.1, p.2))
      else none
/-- Array elements, positioned at the first character of a value. -/
def parseArrElems : Nat → List Char → Option (JArr × List Char)
  | 0, _ => none
  | fuel + 1, s =>
      (parseValue fuel s).bind (fun p => parseArrSep fuel p.1 (skipWs p.2))
/-- After an array element: closing bracket or comma. -/
def parseArrSep : Nat → Json → List Char → Option (JArr × List Char)
  | 0, _, _ => none
  | _ + 1, _, [] => none
  | fuel + 1, x, e :: r2 =>
      if e = ']' then some (.cons x .nil, r2)
      else if e = ',' then
        (parseArrElems fuel (skipWs r2)).map (fun p => (JArr.cons x p.1, p.2))
      else none
end


/-- `json.loads`: leading whitespace, one value, trailing whitespace,
nothing else ("Extra data" otherwise). -/
def loads (cs : List Char) : Option Json :=
  match parseValue (2 * cs.length + 1) (skipWs cs) with
  | some (j, rest) => if skipWs rest = [] then some j else none
  | none => none

/-! ## Number parsing round trip -/

/-- What may legally follow a serialized number so that the scanner stops
exactly at its end (no digit, and no fraction/exponent opener). -/
def RestSafe : List Char → Prop
  | [] => True
  | c :: _ => isDigitCh c = false ∧ c ≠ '.' ∧ c ≠ 'e' ∧ c ≠ 'E'

/-! ## Renderings

`Renders j s` says `s` is a legal text for `j` in the family of layouts the
two serializers use (arbitrary JSON whitespace at the separator positions).
Proving the scanner correct over `Renders` covers `dumpsV` at every indent
level and `dumpsC` at once. -/

def AllWs (ws : List Char) : Prop := ∀ c ∈ ws, isWsChar c = true

mutual
inductive Renders : Json → List Char → Prop where
  | null (s : List Char) : s = ['n', 'u', 'l', 'l'] → Renders .null s
  | btrue (s : List Char) : s = ['t', 'r', 'u', 'e'] → Renders (.boolean true) s
  | bfalse (s : List Char) : s = ['f', 'a', 'l', 's', 'e'] → Renders (.boolean false) s
  | num (n : Int) (s : List Char) : s = intToChars n → Renders (.num n) s
  | str (cs : List Char) (s : List Char) : s = '"' :: escBody cs → Renders (.str cs) s
  | arrNil (s : List Char) : s = ['[', ']'] → Renders (.arr .nil) s
  | arrCons (s ws sx st : List Char) (x : Json) (t : JArr) :
      AllWs ws → Renders x sx → RendersAT t st →
      s = '[' :: (ws ++ sx ++ st) → Renders (.arr (.cons x t)) s
  | objNil (s : List Char) : s = ['{', '}'] → Renders (.obj .nil) s
  | objCons (s ws1 ws3 sv st : List Char) (k : List Char) (v : Json) (t : JObj) :
      AllWs ws1 → AllWs ws3 → Renders v sv → RendersOT t st →
      s = '{' :: (ws1 ++ ('"' :: escBody k) ++ ':' :: (ws3 ++ sv ++ st)) →
      Renders (.obj (.cons k v t)) s
inductive RendersAT : JArr → List Char → Prop where
  | nil (s ws : List Char) : AllWs ws → s = ws ++ [']'] → RendersAT .nil s
  | cons (s ws sx st : List Char) (x : Json) (t : JArr) :
      AllWs ws → Renders x sx → RendersAT t st →
      s = ',' :: (ws ++ sx ++ st) → RendersAT (.cons x t) s
inductive RendersOT : JObj → List Char → Prop where
  | nil (s ws : List Char) : AllWs ws → s = ws ++ ['}'] → RendersOT .nil s
  | cons (s ws1 ws3 sv st : List Char) (k : List Char) (v : Json) (t : JObj) :
      AllWs ws1 → AllWs ws3 → Renders v sv → RendersOT t st →
      s = ',' :: (ws1 ++ ('"' :: escBody k) ++ ':' :: (ws3 ++ sv ++ st)) →
      RendersOT (.cons k v t) s
end


/-! ## Fuel accounting -/

mutual
def jsize : Json → Nat
  | .null => 1
  | .boolean _ => 1
  | .num _ => 1
  | .str _ => 1
  | .arr a => 2 + asize a
  | .obj o => 2 + osize o
def asize : JArr → Nat
  | .nil => 0
  | .cons x t => 2 + jsize x + asize t
def osize : JObj → Nat
  | .nil => 0
  | .cons _ v t => 3 + jsize v + osize t
end

/-! ## UTF-8

`utf8Encode` models `str.encode('utf-8')`; `utf8Decode` models strict
`bytes.decode('utf-8')` (rejecting truncated sequences, stray continuation
bytes, overlong forms, surrogates and values beyond U+10FFFF), returning
`none` where Python raises `UnicodeDecodeError`. -/

def utf8EncodeChar (c : Char) : List Nat :=
  let n := c.toNat
  if n < 0x80 then [n]
  else if n < 0x800 then [0xc0 + n / 64, 0x80 + n % 64]
  else if n < 0x10000 then [0xe0 + n / 4096, 0x80 + n / 64 % 64, 0x80 + n % 64]
  else [0xf0 + n / 0x40000, 0x80 + n / 4096 % 64, 0x80 + n / 64 % 64, 0x80 + n % 64]

def utf8Encode : List Char → List Nat
  | [] => []
  | c :: r => utf8EncodeChar c ++ utf8Encode r

mutual
def utf8DecodeAux : Nat → List Nat → Option (List Char)
  | _, [] => some []
  | 0, _ :: _ => none
  | fuel + 1, b :: rest =>
    if b < 0x80 then (utf8DecodeAux fuel rest).map (fun cs => Char.ofNat b :: cs)
    else if b < 0xc2 then none
    else if b < 0xe0 then utf8Dec2 fuel b rest
    else if b < 0xf0 then utf8Dec3 fuel b rest
    else if b < 0xf5 then utf8Dec4 fuel b rest
    else none
def utf8Dec2 : Nat → Nat → List Nat → Option (List Char)
  | _, _, [] => none
  | fuel, b, b1 :: r2 =>
    if 0x80 ≤ b1 ∧ b1 < 0xc0 then
      (utf8DecodeAux fuel r2).map
        (fun cs => Char.ofNat ((b - 0xc0) * 64 + (b1 - 0x80)) :: cs)
    else none
def utf8Dec3 : Nat → Nat → List Nat → Option (List Char)
  | fuel, b, b1 :: b2 :: r3 =>
    if (0x80 ≤ b1 ∧ b1 < 0xc0) ∧ (0x80 ≤ b2 ∧ b2 < 0xc0) then
      let n := (b - 0xe0) * 4096 + (b1 - 0x80) * 64 + (b2 - 0x80)
      if 0x800 ≤ n ∧ ¬ (0xd800 ≤ n ∧ n < 0xe000) then
        (utf8DecodeAux fuel r3).map (fun cs => Char.ofNat n :: cs)
      else none
    else none
  | _, _, _ => none
def utf8Dec4 : Nat → Nat → List Nat → Option (List Char)
  | fuel, b, b1 :: b2 :: b3 :: r4 =>
    if (0x80 ≤ b1 ∧ b1 < 0xc0) ∧ (0x80 ≤ b2 ∧ b2 < 0xc0) ∧ (0x80 ≤ b3 ∧ b3 < 0xc0) then
      let n := (b - 0xf0) * 0x40000 + (b1 - 0x80) * 4096 + (b2 - 0x80) * 64 + (b3 - 0x80)
      if 0x10000 ≤ n ∧ n < 0x110000 then
        (utf8DecodeAux fuel r4).map (fun cs => Char.ofNat n :: cs)
      else none
    else none
  | _, _, _ => none
end


def utf8Decode (bytes : List Nat) : Option (List Char) :=
  utf8DecodeAux bytes.length bytes

/-- All characters of `s` are ASCII. -/
def AsciiStr (s : List Char) : Prop := ∀ c ∈ s, c.toNat < 0x80

/-! ## The embedding codec (`src/utils/embedding_utils.py`)

Bytes of the two sentinel byte strings
`CONFIG_MARKER_START = b"<<<LAUNCHFORGE_CONFIG_START>>>"` and
`CONFIG_MARKER_END = b"<<<LAUNCHFORGE_CONFIG_END>>>"`. -/

def CONFIG_MARKER_START : List Nat :=
  [60, 60, 60, 76, 65, 85, 78, 67, 72, 70, 79, 82, 71, 69, 95, 67, 79, 78, 70, 73,
   71, 95, 83, 84, 65, 82, 84, 62, 62, 62]

def CONFIG_MARKER_END : List Nat :=
  [60, 60, 60, 76, 65, 85, 78, 67, 72, 70, 79, 82, 71, 69, 95, 67, 79, 78, 70, 73,
   71, 95, 69, 78, 68, 62, 62, 62]

/-- `embed_config`: file I/O abstracted away, the template file's bytes come
in, the output file's bytes go out; the `(False, message)` error return is
an `Except.error message`. -/
def embed_config (template_data : List Nat) (config_data : Json) :
    Except String (List Nat) :=
  let config_bytes := utf8Encode (dumps0 config_data)
  let data_block := CONFIG_MARKER_START ++ config_bytes ++ CONFIG_MARKER_END
  match subFind CONFIG_MARKER_START template_data with
  | some start_idx =>
    match subFindFrom CONFIG_MARKER_END template_data start_idx with
    | none => .error "Template has invalid configuration markers"
    | some end_idx =>
        .ok (template_data.take start_idx ++ data_block ++
          template_data.drop (end_idx + CONFIG_MARKER_END.length))
  | none => .ok (template_data ++ data_block)

/-- `extract_config`: returns the parsed configuration, `none` both when the
markers are not usable and when decoding or parsing raises (the Python
function catches every exception and returns `None`). -/
def extract_config (file_data : List Nat) : Option Json :=
  match subFind CONFIG_MARKER_START file_data with
  | none => none
  | some start_idx =>
    match subFindFrom CONFIG_MARKER_END file_data start_idx with
    | none => none
    | some end_idx =>
      let start_data_idx := start_idx + CONFIG_MARKER_START.length
      ((file_data.drop start_data_idx).take (end_idx - start_data_idx) |>
        utf8Decode).bind loads

/-- `verify_embedding`: extract and compare `json.dumps(…, sort_keys=True)`
canonical forms. -/
def verify_embedding (file_data : List Nat) (expected_config : Json) : Bool :=
  match extract_config file_data with
  | none => false
  | some extracted => dumpsCanon extracted == dumpsCanon expected_config

/-- Embed, then extract from the produced bytes (`none` if embedding failed). -/
def embedExtract (template_data : List Nat) (config_data : Json) : Option Json :=
  match embed_config template_data config_data with
  | .ok out => extract_config out
  | .error _ => none

/-- Suffix–prefix overlap impossibility between a text `a` and a pattern
`p`. -/
def NoOverlap (a p : List Nat) : Prop :=
  ∀ k < p.length, 0 < k → k ≤ a.length → p.take k ≠ a.drop (a.length - k)

instance (a p : List Nat) : Decidable (NoOverlap a p) := by
  unfold NoOverlap; infer_instance

/-! ## Decidable equality for `Except` results, and string-literal helpers -/

def exceptDecEq {e a : Type} [DecidableEq e] [DecidableEq a] :
    (x y : Except e a) → Decidable (x = y)
  | .ok u, .ok v =>
      if h : u = v then .isTrue (by rw [h])
      else .isFalse (fun hh => by cases hh; exact h rfl)
  | .error u, .error v =>
      if h : u = v then .isTrue (by rw [h])
      else .isFalse (fun hh => by cases hh; exact h rfl)
  | .ok _, .error _ => .isFalse (fun hh => by cases hh)
  | .error _, .ok _ => .isFalse (fun hh => by cases hh)

instance {e a : Type} [DecidableEq e] [DecidableEq a] : DecidableEq (Except e a) :=
  exceptDecEq

/-- The character list of a string literal. -/
def toL (s : String) : List Char := s.data

/-- The guard of `embed_config`'s error branch, as a boolean: every start
marker present in the bytes is followed by an end marker (the condition
under which `embed_config` cannot return the invalid-markers error). -/
def markerProvision (t : List Nat) : Bool :=
  match subFind CONFIG_MARKER_START t with
  | none => true
  | some i => (subFindFrom CONFIG_MARKER_END t i).isSome

/-- Embed `d1`, then embed `d2` into the result, then extract (`none` as soon
as one embedding fails). -/
def embed2Extract (template : List Nat) (d1 d2 : Json) : Option Json :=
  match embed_config template d1 with
  | .error _ => none
  | .ok out1 =>
    match embed_config out1 d2 with
    | .error _ => none
    | .ok out2 => extract_config out2

/-- A small configuration dict `{"a": 1}`. -/
def cfgPlainW : Json := Json.obj (JObj.cons ['a'] (Json.num 1) JObj.nil)

/-- A second configuration dict `{"b": 2}`. -/
def cfgPlain2W : Json := Json.obj (JObj.cons ['b'] (Json.num 2) JObj.nil)

/-- A configuration dict whose value smuggles the end-marker text:
`{"a": "<<<LAUNCHFORGE_CONFIG_END>>>"}`. -/
def cfgEndW : Json :=
  Json.obj (JObj.cons ['a'] (Json.str (toL "<<<LAUNCHFORGE_CONFIG_END>>>")) JObj.nil)

/-- Four template bytes with no marker in them. -/
def tplPlainW : List Nat := [77, 90, 144, 0]

/-! ## The configuration data model (`src/models/config_model.py`)

Strings are `List Char`; a Python dict is a `Json` object. `datetime.now()`
and `uuid.uuid4()` are impure, so each translated function takes the
timestamps and fresh identifiers it may generate as explicit parameters. -/

/-- `ModConfig` after `__post_init__` (the `id` field is always set). -/
structure ModConfigM where
  name : List Char
  target_path : List Char
  download_url : List Char
  description : List Char
  version : List Char
  is_required : Bool
  id : List Char
deriving DecidableEq

/-- `LauncherConfig`. -/
structure LauncherConfigM where
  name : List Char
  game_exe : List Char
  description : List Char
  version : List Char
  mods : List ModConfigM
  validation_files : List (List Char)
  default_locations : List (List Char)
  target_os : List Char
  created : List Char
  updated : List Char
deriving DecidableEq

/-- `ModConfig.to_dict`, with the source's key order. -/
def ModConfigM.to_dict (m : ModConfigM) : Json :=
  Json.obj (jobj [
    (toL "id", Json.str m.id),
    (toL "name", Json.str m.name),
    (toL "target_path", Json.str m.target_path),
    (toL "download_url", Json.str m.download_url),
    (toL "description", Json.str m.description),
    (toL "version", Json.str m.version),
    (toL "is_required", Json.boolean m.is_required)])

/-- A typed read of a JSON string value. -/
def asStr : Json → Option (List Char)
  | .str s => some s
  | _ => none

/-- A typed read of a JSON boolean value. -/
def asBool : Json → Option Bool
  | .boolean b => some b
  | _ => none

/-- A typed read of a JSON array value. -/
def asArr : Json → Option (List Json)
  | .arr a => some a.toList
  | _ => none

/-- A typed read of a JSON array of strings. -/
def asStrList : List Json → Option (List (List Char))
  | [] => some []
  | j :: t => (asStr j).bind fun s => (asStrList t).map fun l => s :: l

/-- Python's `data.get(k, d)`. -/
def getD (o : JObj) (k : List Char) (d : Json) : Json :=
  match o.lookup k with
  | none => d
  | some v => v

/-- The `id=data.get("id")` read combined with `__post_init__`: an absent or
null id becomes the fresh `uuid.uuid4()` value. -/
def idOrFresh (fresh : List Char) : Json → Option (List Char)
  | Json.null => some fresh
  | v => asStr v

/-- `ModConfig.from_dict` (with `__post_init__`): `fresh` is the uuid drawn
when the dict carries no id. -/
def ModConfigM.from_dict (fresh : List Char) (j : Json) : Option ModConfigM :=
  match j with
  | .obj o =>
    (o.lookup (toL "name")).bind fun jn => (asStr jn).bind fun name =>
    (o.lookup (toL "target_path")).bind fun jt => (asStr jt).bind fun target_path =>
    (o.lookup (toL "download_url")).bind fun ju => (asStr ju).bind fun download_url =>
    (asStr (getD o (toL "description") (Json.str []))).bind fun description =>
    (asStr (getD o (toL "version") (Json.str (toL "1.0.0")))).bind fun version =>
    (asBool (getD o (toL "is_required") (Json.boolean false))).bind fun is_required =>
    (idOrFresh fresh (getD o (toL "id") Json.null)).map fun id =>
      { name := name, target_path := target_path, download_url := download_url,
        description := description, version := version, is_required := is_required,
        id := id }
  | _ => none

/-- `LauncherConfig.to_dict`: refreshes `updated` to `now` and stamps
`created_with` with `f"{APP_NAME} v{APP_VERSION}"`. -/
def LauncherConfigM.to_dict (now : List Char) (c : LauncherConfigM) : Json :=
  Json.obj (jobj [
    (toL "name", Json.str c.name),
    (toL "game_exe", Json.str c.game_exe),
    (toL "description", Json.str c.description),
    (toL "version", Json.str c.version),
    (toL "mods", Json.arr (jarr (c.mods.map ModConfigM.to_dict))),
    (toL "validation_files", Json.arr (jarr (c.validation_files.map Json.str))),
    (toL "default_locations", Json.arr (jarr (c.default_locations.map Json.str))),
    (toL "target_os", Json.str c.target_os),
    (toL "created_with", Json.str (toL "LaunchForge v0.0.1")),
    (toL "created", Json.str c.created),
    (toL "updated", Json.str now)])

/-- The `[ModConfig.from_dict(mod) for mod in …]` comprehension, drawing the
`i`-th fresh uuid for the `i`-th mod. -/
def modsFromJson (fresh : Nat → List Char) : Nat → List Json → Option (List ModConfigM)
  | _, [] => some []
  | i, j :: t => (ModConfigM.from_dict (fresh i) j).bind fun m =>
      (modsFromJson fresh (i + 1) t).map fun ms => m :: ms

/-- `LauncherConfig.from_dict`: `nowc`/`nowu` are the `datetime.now()`
defaults drawn for a missing `created`/`updated` key. -/
def LauncherConfigM.from_dict (fresh : Nat → List Char) (nowc nowu : List Char)
    (j : Json) : Option LauncherConfigM :=
  match j with
  | .obj o =>
    (o.lookup (toL "name")).bind fun jn => (asStr jn).bind fun name =>
    (o.lookup (toL "game_exe")).bind fun jg => (asStr jg).bind fun game_exe =>
    (asStr (getD o (toL "description") (Json.str []))).bind fun description =>
    (asStr (getD o (toL "version") (Json.str (toL "1.0.0")))).bind fun version =>
    (asArr (getD o (toL "mods") (Json.arr JArr.nil))).bind fun jmods =>
    (modsFromJson fresh 0 jmods).bind fun mods =>
    (asArr (getD o (toL "validation_files") (Json.arr JArr.nil))).bind fun jv =>
    (asStrList jv).bind fun validation_files =>
    (asArr (getD o (toL "default_locations") (Json.arr JArr.nil))).bind fun jd =>
    (asStrList jd).bind fun default_locations =>
    (asStr (getD o (toL "target_os") (Json.str (toL "windows")))).bind fun target_os =>
    (asStr (getD o (toL "created") (Json.str nowc))).bind fun created =>
    (asStr (getD o (toL "updated") (Json.str nowu))).map fun updated =>
      { name := name, game_exe := game_exe, description := description,
        version := version, mods := mods, validation_files := validation_files,
        default_locations := default_locations, target_os := target_os,
        created := created, updated := updated }
  | _ => none

/-- `LauncherConfig.add_validation_file`: `now` is the `datetime.now()`
timestamp drawn if the file is appended. -/
def LauncherConfigM.add_validation_file (now : List Char) (c : LauncherConfigM)
    (p : List Char) : LauncherConfigM :=
  if p ∈ c.validation_files then c
  else { c with validation_files := c.validation_files ++ [p], updated := now }

/-! ## The validator (`src/builder/validator.py`)

Python regexes over `str` are modelled on `List Char`, with `\s`, `\d` and
`str.strip()` read over their ASCII members (every string the claims touch
is ASCII). `re.match` anchors at the start; a trailing `$` matches at the
end of the string or just before one final newline. -/

/-- A Python whitespace character (the ASCII ones). -/
def isPyWs (c : Char) : Bool :=
  decide (c.toNat = 32 ∨ c.toNat = 9 ∨ c.toNat = 10 ∨ c.toNat = 13 ∨
    c.toNat = 11 ∨ c.toNat = 12)

/-- Python `str.strip()`. -/
def pyStrip (s : List Char) : List Char :=
  ((s.dropWhile isPyWs).reverse.dropWhile isPyWs).reverse

/-- `\d+`: one or more digits, greedily, returning the rest. -/
def digits1 (s : List Char) : Option (List Char) :=
  match s with
  | [] => none
  | c :: r => if isDigitCh c then some (dropDigits r) else none

/-- The trailing `$` anchor of `re.match`: end of string, or just before one
final newline. -/
def endAnchorHere : List Char → Bool
  | [] => true
  | ['\n'] => true
  | _ => false

/-- `_is_valid_version`: `re.match(r'^\d+\.\d+\.\d+$', version)`. -/
def is_valid_version (version : List Char) : Bool :=
  match digits1 version with
  | none => false
  | some r1 =>
    match r1 with
    | '.' :: r2 =>
      match digits1 r2 with
      | none => false
      | some r3 =>
        match r3 with
        | '.' :: r4 =>
          match digits1 r4 with
          | none => false
          | some r5 => endAnchorHere r5
        | _ => false
    | _ => false

/-- A non-whitespace character (`\S`). -/
def nonWs (c : Char) : Bool := !isPyWs c

/-- `[^\s]*$`: a run of non-whitespace characters up to the anchor. -/
def nonWsTail : List Char → Bool
  | [] => true
  | ['\n'] => true
  | c :: r => nonWs c && nonWsTail r

/-- The scheme alternation `(https?|ftp)` followed by `://` (the branches are
disjoint, so the regex engine's backtracking order does not matter). -/
def schemeRest (url : List Char) : Option (List Char) :=
  match stripPre (toL "https://") url with
  | some r => some r
  | none =>
    match stripPre (toL "http://") url with
    | some r => some r
    | none => stripPre (toL "ftp://") url

/-- `re.match(r'^(https?|ftp)://[^\s/$.?#].[^\s]*$', url)`: the scheme, one
character outside the class, any character but a newline (`.`), then
non-whitespace up to the anchor. -/
def genericMatch (url : List Char) : Bool :=
  match schemeRest url with
  | none => false
  | some r =>
    match r with
    | c1 :: c2 :: rest =>
        nonWs c1 && !(c1 == '/') && !(c1 == '$') && !(c1 == '.') && !(c1 == '?') &&
          !(c1 == '#') && !(c2 == '\n') && nonWsTail rest
    | _ => false

/-- `re.match(r'^https://drive\.google\.com/\S+$', url)`. -/
def gdriveMatch (url : List Char) : Bool :=
  match stripPre (toL "https://drive.google.com/") url with
  | none => false
  | some r =>
    match r with
    | c :: rest => nonWs c && nonWsTail rest
    | [] => false

/-- `re.match(r'^https://www\.dropbox\.com/\S+$', url)`. -/
def dropboxMatch (url : List Char) : Bool :=
  match stripPre (toL "https://www.dropbox.com/") url with
  | none => false
  | some r =>
    match r with
    | c :: rest => nonWs c && nonWsTail rest
    | [] => false

/-- `_is_valid_url`, with the source's control flow. -/
def is_valid_url (url : List Char) : Bool :=
  if genericMatch url = false then
    if (gdriveMatch url || dropboxMatch url) = false then false
    else true
  else true

/-- The error key `f"mod_{i}_download_url"`. -/
def dlKey (i : Nat) : List Char := toL "mod_" ++ natDigits i ++ toL "_download_url"

/-- The error key `f"mod_{i}_name"`. -/
def nameKey (i : Nat) : List Char := toL "mod_" ++ natDigits i ++ toL "_name"

/-- The error key `f"mod_{i}_target_path"`. -/
def tpKey (i : Nat) : List Char := toL "mod_" ++ natDigits i ++ toL "_target_path"

/-- The entries one pass of the `for i, mod in enumerate(config.mods)` loop
adds to the errors dict. -/
def modErrors (i : Nat) (m : ModConfigM) : List (List Char × List Char) :=
  (if (pyStrip m.name).isEmpty then
    [(nameKey i, toL "Mod " ++ natDigits (i + 1) ++ toL " requires a name")] else []) ++
  (if (pyStrip m.target_path).isEmpty then
    [(tpKey i, toL "Mod '" ++ m.name ++ toL "' requires a target path")] else []) ++
  (if (pyStrip m.download_url).isEmpty then
    [(dlKey i, toL "Mod '" ++ m.name ++ toL "' requires a download URL")]
   else if is_valid_url m.download_url = false then
    [(dlKey i, toL "Mod '" ++ m.name ++ toL "' has an invalid download URL")]
   else [])

/-- The whole mod loop, starting at index `i`. -/
def modsErrors : Nat → List ModConfigM → List (List Char × List Char)
  | _, [] => []
  | i, m :: t => modErrors i m ++ modsErrors (i + 1) t

/-- `validate_config`: the errors dict in insertion order (each key is
assigned at most once per run, so a list of pairs loses nothing). -/
def validate_config (c : LauncherConfigM) : List (List Char × List Char) :=
  (if (pyStrip c.name).isEmpty then
    [(toL "name", toL "Launcher name is required")] else []) ++
  (if (pyStrip c.game_exe).isEmpty then
    [(toL "game_exe", toL "Game executable path is required")] else []) ++
  (if c.version.isEmpty = false ∧ is_valid_version c.version = false then
    [(toL "version", toL "Version must be in format X.Y.Z (e.g., 1.0.0)")] else []) ++
  (if c.mods.isEmpty then
    [(toL "mods", toL "At least one mod is required")] else []) ++
  modsErrors 0 c.mods ++
  (if c.validation_files.isEmpty then
    [(toL "validation_files", toL "At least one validation file is required")] else []) ++
  (if c.target_os ∉ [toL "windows", toL "macos", toL "linux"] then
    [(toL "target_os", toL "Target OS must be 'windows', 'macos', or 'linux'")] else [])

/-- The keys of the errors dict. -/
def errKeys (l : List (List Char × List Char)) : List (List Char) := l.map Prod.fst

/-- The mod loop's own condition for a `mod_{i}_download_url` entry. -/
def urlBad (m : ModConfigM) : Bool :=
  (pyStrip m.download_url).isEmpty || !is_valid_url m.download_url

/-- A mod whose `download_url` is `"not-a-url"`. -/
def modW8 : ModConfigM :=
  ⟨toL "Base Mod", toL "mods/", toL "not-a-url", [], toL "1.0.0", false, toL "id0"⟩

/-- A configuration carrying `modW8` as its only mod. -/
def cfgW8 : LauncherConfigM :=
  ⟨toL "L", toL "game.exe", [], toL "1.0.0", [modW8], [toL "f"], [],
    toL "windows", toL "t0", toL "t1"⟩

/-! ## The builder engine (`src/builder/builder_engine.py`)

`build` and `_build_executable` drive subprocesses and the filesystem; the
model keeps exactly what decides their control flow and progress reports:
whether `_create_launcher_script` succeeds, how many stdout lines PyInstaller
prints, its return code, and whether the dist artifact exists. A run is
summarized as (success, the list of reported percents in order). -/

structure BuildEnv where
  scriptOk : Bool
  pyLines : Nat
  returncode : Int
  distExists : Bool

/-- The PyInstaller stdout loop: one iteration per line; while the counter is
below 80 it increments and reports. -/
def pyLoop : Nat → Nat → List Nat
  | _, 0 => []
  | p, n + 1 => if p < 80 then (p + 1) :: pyLoop (p + 1) n else pyLoop p n

/-- `_build_executable`, as (success, reported percents). -/
def build_executable_trace (env : BuildEnv) : Bool × List Nat :=
  let tr := 40 :: pyLoop 40 env.pyLines
  if env.returncode ≠ 0 then (false, tr)
  else if env.distExists = false then (false, tr)
  else (true, tr ++ [85, 90])

/-- `build`, as (success, reported percents). -/
def build_trace (env : BuildEnv) : Bool × List Nat :=
  if env.scriptOk = false then (false, [5, 15])
  else
    let r := build_executable_trace env
    if r.1 = false then (false, [5, 15, 30] ++ r.2)
    else (true, [5, 15, 30] ++ r.2 ++ [95, 100])

/-- An environment where everything succeeds and PyInstaller prints no
output line. -/
def envW6 : BuildEnv := ⟨true, 0, 0, true⟩

/-! ## Template resolution (`src/models/constants.py` and
`BuilderEngine.__init__`) -/

/-- `os.path.join(dir, name)` with the POSIX separator. -/
def pathJoin (a b : List Char) : List Char := a ++ '/' :: b

/-- `LAUNCHER_TEMPLATE_PATH`: one fixed file `launcher_template.py` under the
template directory returned by `get_template_path()`. -/
def LAUNCHER_TEMPLATE_PATH (template_dir : List Char) : List Char :=
  pathJoin template_dir (toL "launcher_template.py")

/-- `EXECUTABLE_EXTENSIONS.get(target_os, "")`. -/
def executable_extension (target_os : List Char) : List Char :=
  if target_os = toL "windows" then toL ".exe"
  else if target_os = toL "macos" then toL ".app"
  else if target_os = toL "linux" then []
  else []

/-- The state `BuilderEngine.__init__` establishes. -/
structure BuilderEngineM where
  config : LauncherConfigM
  template_path : List Char

/-- `BuilderEngine.__init__`: stores the configuration and the constant
template path. -/
def builderInit (template_dir : List Char) (config : LauncherConfigM) : BuilderEngineM :=
  { config := config, template_path := LAUNCHER_TEMPLATE_PATH template_dir }

/-- A configuration whose target OS is the unrecognized `"atari"`. -/
def cfgAtariW : LauncherConfigM :=
  ⟨toL "L", toL "game.exe", [], toL "1.0.0", [], [], [], toL "atari",
    toL "t0", toL "t1"⟩

theorem leadsWith_iff (pat s : List Nat) : leadsWith pat s = true ↔ LeadsWith pat s := by
  induction pat generalizing s with
  | nil => simp [leadsWith, LeadsWith]
  | cons a as ih =>
    cases s with
    | nil => simp [leadsWith, LeadsWith]
    | cons b bs =>
      simp only [leadsWith, Bool.and_eq_true, decide_eq_true_eq, ih, LeadsWith]
      constructor
      · rintro ⟨rfl, t, rfl⟩; exact ⟨t, rfl⟩
      · rintro ⟨t, h⟩
        injection h with h1 h2
        exact ⟨h1, t, h2⟩

theorem LeadsWith.nil (s : List Nat) : LeadsWith [] s := ⟨s, rfl⟩

theorem LeadsWith.length_le {pat s : List Nat} (h : LeadsWith pat s) :
    pat.length ≤ s.length := by
  obtain ⟨t, rfl⟩ := h
  simp

theorem leadsWith_append (pat rest : List Nat) : LeadsWith pat (pat ++ rest) :=
  ⟨rest, rfl⟩

theorem LeadsWith.eq_take {pat s : List Nat} (h : LeadsWith pat s) :
    pat = s.take pat.length := by
  obtain ⟨t, rfl⟩ := h
  simp

theorem subFind_none_iff (pat s : List Nat) (hne : pat ≠ []) :
    subFind pat s = none ↔ ∀ j, ¬ LeadsWith pat (s.drop j) := by
  induction s with
  | nil =>
    simp only [subFind, if_neg hne, List.drop_nil, true_iff]
    intro j h
    obtain ⟨t, ht⟩ := h
    cases pat with
    | nil => exact hne rfl
    | cons a as => simp at ht
  | cons b t ih =>
    by_cases h : leadsWith pat (b :: t)
    · simp only [subFind, if_pos h]
      constructor
      · intro hc; cases hc
      · intro hall
        exact absurd ((leadsWith_iff _ _).mp h) (by simpa using hall 0)
    · simp only [subFind, if_neg h, Option.map_eq_none', ih]
      constructor
      · intro hall j
        cases j with
        | zero =>
          intro hl
          exact h ((leadsWith_iff _ _).mpr (by simpa using hl))
        | succ k => simpa using hall k
      · intro hall j
        simpa using hall (j + 1)

theorem subFind_eq_some (pat s : List Nat) {n : Nat} (h : subFind pat s = some n) :
    LeadsWith pat (s.drop n) ∧ ∀ j < n, ¬ LeadsWith pat (s.drop j) := by
  induction s generalizing n with
  | nil =>
    by_cases hp : pat = []
    · subst hp
      have hn : 0 = n := by simpa [subFind] using h
      subst hn
      exact ⟨LeadsWith.nil _, by intro j hj; omega⟩
    · simp [subFind, hp] at h
  | cons b t ih =>
    by_cases hl : leadsWith pat (b :: t)
    · have hn : 0 = n := by simpa [subFind, if_pos hl] using h
      subst hn
      exact ⟨by simpa using (leadsWith_iff _ _).mp hl, by intro j hj; omega⟩
    · simp only [subFind, if_neg hl, Option.map_eq_some'] at h
      obtain ⟨m, hm, rfl⟩ := h
      obtain ⟨h1, h2⟩ := ih hm
      refine ⟨by simpa using h1, ?_⟩
      intro j hj
      cases j with
      | zero =>
        intro hc
        exact hl ((leadsWith_iff _ _).mpr (by simpa using hc))
      | succ k =>
        have := h2 k (by omega)
        simpa using this

theorem noOccur_of_subFind_none {pat s : List Nat} (hne : pat ≠ [])
    (h : subFind pat s = none) : NoOccur pat s :=
  (subFind_none_iff pat s hne).mp h

theorem noOccur_take {pat s : List Nat} {n : Nat} (hne : pat ≠ [])
    (hmin : ∀ j < n, ¬ LeadsWith pat (s.drop j)) : NoOccur pat (s.take n) := by
  intro j hl
  rcases Nat.lt_or_ge j n with hj | hj
  · refine hmin j hj ?_
    obtain ⟨t, ht⟩ := hl
    rw [List.drop_take] at ht
    exact ⟨t ++ (s.drop j).drop (n - j), by
      rw [← List.append_assoc, ht, List.take_append_drop]⟩
  · have : (s.take n).drop j = [] := by
      apply List.eq_nil_of_length_eq_zero
      simp only [List.length_drop, List.length_take]
      omega
    rw [this] at hl
    obtain ⟨t, ht⟩ := hl
    cases pat with
    | nil => exact hne rfl
    | cons a as => simp at ht

theorem noOccur_nil (pat : List Nat) (hne : pat ≠ []) : NoOccur pat [] := by
  intro j hl
  obtain ⟨t, ht⟩ := hl
  cases pat with
  | nil => exact hne rfl
  | cons a as => simp at ht

/-- An occurrence of `pat` in `pre ++ x` that starts inside `pre` and reaches
past it splits `pat`: its first part is the tail of `pre`, the remainder
starts `x`. -/
theorem straddle_decomp {pat pre x : List Nat} {j : Nat}
    (hj : j ≤ pre.length) (hk : pre.length - j < pat.length)
    (h : LeadsWith pat ((pre ++ x).drop j)) :
    pat.take (pre.length - j) = pre.drop j ∧
      LeadsWith (pat.drop (pre.length - j)) x := by
  obtain ⟨t, ht⟩ := h
  rw [List.drop_append_of_le_length hj] at ht
  set k := pre.length - j with hkdef
  have hklen : (pre.drop j).length = k := by simp [hkdef]
  constructor
  · have h1 : (pat ++ t).take k = pat.take k := List.take_append_of_le_length (by omega)
    rw [← h1, ht, List.take_append_of_le_length (by omega), List.take_of_length_le (by omega)]
  · have h2 : (pat ++ t).drop k = pat.drop k ++ t := List.drop_append_of_le_length (by omega)
    refine ⟨t, ?_⟩
    rw [← h2, ht, List.drop_append_of_le_length (by omega), List.drop_of_length_le (by omega)]
    simp

/-- An occurrence of `pat` in `pre ++ x` that fits inside `pre` is an
occurrence in `pre`. -/
theorem inside_decomp {pat pre x : List Nat} {j : Nat}
    (hj : j + pat.length ≤ pre.length)
    (h : LeadsWith pat ((pre ++ x).drop j)) :
    LeadsWith pat (pre.drop j) := by
  obtain ⟨t, ht⟩ := h
  rw [List.drop_append_of_le_length (by omega)] at ht
  have hlen : pat.length ≤ (pre.drop j).length := by simp; omega
  have h1 : pat = (pre.drop j).take pat.length := by
    have := congrArg (List.take pat.length) ht
    rw [List.take_append_of_le_length (le_refl _), List.take_of_length_le (le_refl _),
      List.take_append_of_le_length hlen] at this
    exact this
  refine ⟨(pre.drop j).drop pat.length, ?_⟩
  nth_rewrite 1 [h1]
  exact List.take_append_drop _ _

/-- Occurrences of `pat` in `a ++ b` require an occurrence in `a`, an
occurrence in `b`, or an overlap of a suffix of `a` with a prefix of `pat`. -/
theorem noOccur_append {pat a b : List Nat}
    (ha : NoOccur pat a) (hb : NoOccur pat b)
    (hov : ∀ k, 0 < k → k ≤ a.length → k < pat.length →
      pat.take k ≠ a.drop (a.length - k)) :
    NoOccur pat (a ++ b) := by
  intro j hl
  rcases Nat.lt_or_ge j a.length with hj | hj
  · rcases le_or_lt (j + pat.length) a.length with hin | hstr
    · exact ha j (inside_decomp hin hl)
    · have hk : a.length - j < pat.length := by omega
      obtain ⟨h1, _⟩ := straddle_decomp (by omega) hk hl
      refine hov (a.length - j) (by omega) (by omega) hk ?_
      rw [show a.length - (a.length - j) = j by omega]
      exact h1
  · have hdrop : (a ++ b).drop j = b.drop (j - a.length) := by
      rw [List.drop_append_eq_append_drop, List.drop_of_length_le hj]
      simp
    rw [hdrop] at hl
    exact hb _ hl

theorem subFind_eq_some_of (pat s : List Nat) (n : Nat) (hne : pat ≠ [])
    (h1 : LeadsWith pat (s.drop n)) (h2 : ∀ j < n, ¬ LeadsWith pat (s.drop j)) :
    subFind pat s = some n := by
  induction s generalizing n with
  | nil =>
    exfalso
    rw [List.drop_nil] at h1
    obtain ⟨t, ht⟩ := h1
    cases pat with
    | nil => exact hne rfl
    | cons a as => simp at ht
  | cons b t ih =>
    cases n with
    | zero =>
      have : leadsWith pat (b :: t) = true := (leadsWith_iff _ _).mpr (by simpa using h1)
      rw [subFind, if_pos this]
    | succ m =>
      have hnl : ¬ leadsWith pat (b :: t) = true := by
        intro hc
        exact h2 0 (by omega) (by simpa using (leadsWith_iff _ _).mp hc)
      rw [subFind, if_neg hnl]
      have := ih m (by simpa using h1) (by
        intro j hj
        have := h2 (j + 1) (by omega)
        simpa using this)
      rw [this]
      rfl

/-- If `pat` is unbordered and does not occur in `pre`, then its first
occurrence in `pre ++ (pat ++ rest)` is exactly at index `pre.length`. -/
theorem subFind_block {pat pre rest : List Nat}
    (hub : Unbordered pat) (hne : pat ≠ [])
    (hpre : NoOccur pat pre) :
    subFind pat (pre ++ (pat ++ rest)) = some pre.length := by
  apply subFind_eq_some_of _ _ _ hne
  · rw [List.drop_left]
    exact leadsWith_append _ _
  · intro j hj hl
    rcases le_or_lt (j + pat.length) pre.length with hin | hstr
    · exact hpre j (inside_decomp hin hl)
    · have hk : pre.length - j < pat.length := by omega
      obtain ⟨h1, h2⟩ := straddle_decomp (by omega) hk hl
      set k := pre.length - j with hkdef
      have hk0 : 0 < k := by omega
      -- `pat.drop k` is also a prefix of `pat`: a nonempty proper border
      obtain ⟨u, hu⟩ := h2
      have hdl : (pat.drop k).length = pat.length - k := by simp
      have h3 : pat.drop k = pat.take (pat.length - k) := by
        have := congrArg (List.take (pat.length - k)) hu
        rw [List.take_append_of_le_length (by omega),
          List.take_of_length_le (by omega),
          List.take_append_of_le_length (by omega)] at this
        exact this
      exact hub (pat.length - k) (by omega) (by omega)
        (by rw [← h3, show pat.length - (pat.length - k) = k by omega])

/-! ## Character and digit lemmas -/

theorem char_toNat_ofNat {n : Nat} (h : Nat.isValidChar n) :
    (Char.ofNat n).toNat = n := by
  unfold Char.ofNat
  rw [dif_pos h]
  have hlt : n < 2 ^ 32 := by
    rcases h with h | ⟨_, h⟩ <;> omega
  simp [Char.ofNatAux, Char.toNat, UInt32.toNat, UInt32.ofNatCore, BitVec.toNat_ofNat,
    Nat.mod_eq_of_lt hlt]

theorem char_toNat_ofNat_small {n : Nat} (h : n < 0xd800) :
    (Char.ofNat n).toNat = n := char_toNat_ofNat (Or.inl h)

theorem char_ne_of_toNat_ne {c d : Char} (h : c.toNat ≠ d.toNat) : c ≠ d :=
  fun e => h (congrArg Char.toNat e)

theorem char_valid (c : Char) : Nat.isValidChar c.toNat := by
  have := c.valid
  rcases this with h | ⟨h1, h2⟩
  · exact Or.inl h
  · exact Or.inr ⟨h1, h2⟩

theorem digitChar_toNat {d : Nat} (h : d < 10) : (digitChar d).toNat = 48 + d :=
  char_toNat_ofNat_small (by omega)

theorem isDigitCh_digitChar {d : Nat} (h : d < 10) : isDigitCh (digitChar d) = true := by
  simp [isDigitCh, digitChar_toNat h]
  omega

theorem natDigitsAux_irrel : ∀ (n f1 f2 : Nat) (acc : List Char), n < f1 → n < f2 →
    natDigitsAux f1 n acc = natDigitsAux f2 n acc := by
  intro n
  induction n using Nat.strong_induction_on with
  | _ n ih =>
    intro f1 f2 acc h1 h2
    obtain ⟨a, rfl⟩ : ∃ a, f1 = a + 1 := ⟨f1 - 1, by omega⟩
    obtain ⟨b, rfl⟩ : ∃ b, f2 = b + 1 := ⟨f2 - 1, by omega⟩
    by_cases h : n < 10
    · rw [natDigitsAux, if_pos h, natDigitsAux, if_pos h]
    · rw [natDigitsAux, if_neg h, natDigitsAux, if_neg h]
      have hlt : n / 10 < n := Nat.div_lt_self (by omega) (by omega)
      exact ih (n / 10) hlt _ _ _ (by omega) (by omega)

theorem natDigitsAux_acc : ∀ (n f : Nat) (acc : List Char), n < f →
    natDigitsAux f n acc = natDigitsAux f n [] ++ acc := by
  intro n
  induction n using Nat.strong_induction_on with
  | _ n ih =>
    intro f acc hf
    obtain ⟨a, rfl⟩ : ∃ a, f = a + 1 := ⟨f - 1, by omega⟩
    by_cases h : n < 10
    · rw [natDigitsAux, if_pos h, natDigitsAux, if_pos h]
      rfl
    · rw [natDigitsAux, if_neg h, natDigitsAux, if_neg h]
      have hlt : n / 10 < n := Nat.div_lt_self (by omega) (by omega)
      rw [ih (n / 10) hlt a (digitChar (n % 10) :: acc) (by omega),
        ih (n / 10) hlt a [digitChar (n % 10)] (by omega)]
      simp

theorem natDigits_small {n : Nat} (h : n < 10) : natDigits n = [digitChar n] := by
  rw [natDigits, natDigitsAux, if_pos h]

theorem natDigits_split {n : Nat} (h : ¬ n < 10) :
    natDigits n = natDigits (n / 10) ++ [digitChar (n % 10)] := by
  have hlt : n / 10 < n := Nat.div_lt_self (by omega) (by omega)
  conv_lhs => rw [natDigits, natDigitsAux, if_neg h]
  rw [natDigitsAux_acc (n / 10) n _ hlt,
    natDigitsAux_irrel (n / 10) n (n / 10 + 1) [] hlt (by omega)]
  rfl

theorem natDigits_ne_nil (n : Nat) : natDigits n ≠ [] := by
  by_cases h : n < 10
  · rw [natDigits_small h]; simp
  · rw [natDigits_split h]; simp

theorem natDigits_all_digits (n : Nat) :
    ∀ c ∈ natDigits n, isDigitCh c = true := by
  induction n using Nat.strong_induction_on with
  | _ n ih =>
    by_cases h : n < 10
    · rw [natDigits_small h]
      intro c hc
      simp at hc
      subst hc
      exact isDigitCh_digitChar h
    · rw [natDigits_split h]
      intro c hc
      rw [List.mem_append] at hc
      rcases hc with hc | hc
      · exact ih (n / 10) (Nat.div_lt_self (by omega) (by omega)) c hc
      · simp at hc
        subst hc
        exact isDigitCh_digitChar (Nat.mod_lt _ (by omega))

theorem natDigits_head_ne_zero : ∀ n : Nat, 1 ≤ n →
    ∀ c cs, natDigits n = c :: cs → c ≠ '0' := by
  intro n
  induction n using Nat.strong_induction_on with
  | _ n ih =>
    intro hn c cs hc
    by_cases h : n < 10
    · rw [natDigits_small h] at hc
      injection hc with h1 _
      subst h1
      apply char_ne_of_toNat_ne
      rw [digitChar_toNat h]
      have : '0'.toNat = 48 := by decide
      omega
    · rw [natDigits_split h] at hc
      obtain ⟨d, ds, hds⟩ := List.exists_cons_of_ne_nil (natDigits_ne_nil (n / 10))
      rw [hds] at hc
      injection hc with h1 _
      subst h1
      refine ih (n / 10) (Nat.div_lt_self (by omega) (by omega)) ?_ d ds hds
      omega

theorem digitsVal_append_singleton (l : List Char) (c : Char) :
    digitsVal (l ++ [c]) = 10 * digitsVal l + (c.toNat - 48) := by
  simp [digitsVal, List.foldl_append]

theorem digitsVal_natDigits (n : Nat) : digitsVal (natDigits n) = n := by
  induction n using Nat.strong_induction_on with
  | _ n ih =>
    by_cases h : n < 10
    · rw [natDigits_small h]
      simp [digitsVal, digitChar_toNat h]
    · rw [natDigits_split h, digitsVal_append_singleton,
        ih (n / 10) (Nat.div_lt_self (by omega) (by omega)),
        digitChar_toNat (Nat.mod_lt _ (by omega))]
      omega

theorem checkNoFloat_safe (n : Nat) (rest : List Char) (h : RestSafe rest) :
    checkNoFloat n rest = some (n, rest) := by
  cases rest with
  | nil => rfl
  | cons c r =>
    obtain ⟨_, h2, h3, h4⟩ := h
    simp only [checkNoFloat]
    rw [if_neg (by simp [h2, h3, h4])]

theorem takeDigits_append (ds rest : List Char)
    (hds : ∀ c ∈ ds, isDigitCh c = true) (hr : RestSafe rest) :
    takeDigits (ds ++ rest) = ds := by
  induction ds with
  | nil =>
    cases rest with
    | nil => rfl
    | cons c r =>
      obtain ⟨h1, _, _, _⟩ := hr
      simp [takeDigits, h1]
  | cons d ds ih =>
    simp only [List.cons_append, takeDigits]
    rw [if_pos (hds d (by simp))]
    simp only [List.append_eq]
    rw [ih (fun c hc => hds c (by simp [hc]))]

theorem dropDigits_append (ds rest : List Char)
    (hds : ∀ c ∈ ds, isDigitCh c = true) (hr : RestSafe rest) :
    dropDigits (ds ++ rest) = rest := by
  induction ds with
  | nil =>
    cases rest with
    | nil => rfl
    | cons c r =>
      obtain ⟨h1, _, _, _⟩ := hr
      simp [dropDigits, h1]
  | cons d ds ih =>
    simp only [List.cons_append, dropDigits]
    rw [if_pos (hds d (by simp))]
    simp only [List.append_eq]
    rw [ih (fun c hc => hds c (by simp [hc]))]

theorem parseUInt_natDigits (n : Nat) (rest : List Char) (hr : RestSafe rest) :
    parseUInt (natDigits n ++ rest) = some (n, rest) := by
  by_cases h0 : n = 0
  · subst h0
    rw [natDigits_small (by omega)]
    have : digitChar 0 = '0' := by decide
    rw [this]
    simp only [List.cons_append, List.nil_append, parseUInt, if_true]
    exact checkNoFloat_safe 0 rest hr
  · obtain ⟨d, ds, hds⟩ := List.exists_cons_of_ne_nil (natDigits_ne_nil n)
    rw [hds]
    have hdig : ∀ c ∈ d :: ds, isDigitCh c = true := by
      rw [← hds]; exact natDigits_all_digits n
    have hd0 : d ≠ '0' := natDigits_head_ne_zero n (by omega) d ds hds
    simp only [List.cons_append, parseUInt]
    rw [if_neg hd0, if_pos (hdig d (by simp))]
    rw [takeDigits_append ds rest (fun c hc => hdig c (by simp [hc])) hr]
    rw [dropDigits_append ds rest (fun c hc => hdig c (by simp [hc])) hr]
    rw [show d :: ds = natDigits n from hds.symm, digitsVal_natDigits]
    exact checkNoFloat_safe n rest hr

theorem parseNumber_intToChars (i : Int) (rest : List Char) (hr : RestSafe rest) :
    parseNumber (intToChars i ++ rest) = some (i, rest) := by
  by_cases hneg : i < 0
  · rw [intToChars, if_pos hneg]
    simp only [List.cons_append, parseNumber, if_true]
    rw [parseUInt_natDigits _ _ hr]
    simp only [Option.map_some']
    congr 2
    omega
  · rw [intToChars, if_neg hneg]
    obtain ⟨d, ds, hds⟩ := List.exists_cons_of_ne_nil (natDigits_ne_nil i.toNat)
    rw [hds]
    have hd : isDigitCh d = true := by
      have := natDigits_all_digits i.toNat d
      rw [hds] at this
      exact this (by simp)
    have hdm : d ≠ '-' := by
      apply char_ne_of_toNat_ne
      have : ('-').toNat = 45 := by decide
      simp [isDigitCh] at hd
      omega
    simp only [List.cons_append, parseNumber]
    rw [if_neg hdm]
    rw [show d :: (ds ++ rest) = natDigits i.toNat ++ rest by rw [hds]; simp]
    rw [parseUInt_natDigits _ _ hr]
    simp only [Option.map_some']
    congr 2
    omega

/-! ## String parsing round trip -/

theorem hexVal_hexDigitChar : ∀ d < 16, hexVal (hexDigitChar d) = some d := by decide

theorem parseHex4_hex4 (n : Nat) (h : n < 0x10000) :
    parseHex4 (hexDigitChar (n / 4096)) (hexDigitChar (n / 256 % 16))
      (hexDigitChar (n / 16 % 16)) (hexDigitChar (n % 16)) = some n := by
  rw [parseHex4, hexVal_hexDigitChar (n / 4096) (by omega),
    hexVal_hexDigitChar (n / 256 % 16) (by omega),
    hexVal_hexDigitChar (n / 16 % 16) (by omega),
    hexVal_hexDigitChar (n % 16) (by omega)]
  simp only [Option.some.injEq]
  omega

theorem parseStr_step_quote (r : List Char) : parseStr ('"' :: r) = some ([], r) := by
  rw [parseStr, if_pos rfl]

theorem parseStr_step_esc (r : List Char) : parseStr ('\\' :: r) = parseEsc r := by
  rw [parseStr, if_neg (by decide), if_pos rfl]

theorem parseStr_step_lit (c : Char) (r : List Char)
    (h1 : c ≠ '"') (h2 : c ≠ '\\') (h3 : ¬ c.toNat < 0x20) :
    parseStr (c :: r) = (parseStr r).map (fun p => (c :: p.1, p.2)) := by
  rw [parseStr, if_neg h1, if_neg h2, if_neg h3]

theorem parseEsc_simple (e c : Char) (he : escMap e = some c) (hne : e ≠ 'u')
    (r2 : List Char) :
    parseEsc (e :: r2) = (parseStr r2).map (fun p => (c :: p.1, p.2)) := by
  rw [parseEsc, if_neg hne, he]

theorem parseEsc_u (a b c d : Char) (r2 : List Char) (n : Nat)
    (hh : parseHex4 a b c d = some n)
    (hs1 : ¬ (0xd800 ≤ n ∧ n < 0xdc00)) (hs2 : ¬ (0xdc00 ≤ n ∧ n < 0xe000)) :
    parseEsc ('u' :: a :: b :: c :: d :: r2) =
      (parseStr r2).map (fun p => (Char.ofNat n :: p.1, p.2)) := by
  rw [parseEsc, if_pos rfl, parseU, hh]
  simp only [if_neg hs1, if_neg hs2]

theorem parseEsc_u_pair (a b c d e f g i : Char) (r3 : List Char) {hi lo : Nat}
    (hhi : parseHex4 a b c d = some hi)
    (hlo : parseHex4 e f g i = some lo)
    (hs : 0xd800 ≤ hi ∧ hi < 0xdc00) (hls : 0xdc00 ≤ lo ∧ lo < 0xe000) :
    parseEsc ('u' :: a :: b :: c :: d :: '\\' :: 'u' :: e :: f :: g :: i :: r3) =
      (parseStr r3).map (fun p =>
        (Char.ofNat (0x10000 + (hi - 0xd800) * 0x400 + (lo - 0xdc00)) :: p.1, p.2)) := by
  rw [parseEsc, if_pos rfl, parseU, hhi]
  simp only [if_pos hs]
  rw [parseU2, if_pos rfl, parseU3, if_pos rfl, parseU4, hlo]
  simp only [if_pos hls]

theorem parseStr_escBody (cs rest : List Char) :
    parseStr (escBody cs ++ rest) = some (cs, rest) := by
  induction cs with
  | nil =>
    show parseStr ('"' :: rest) = _
    rw [parseStr_step_quote]
  | cons c cs ih =>
    show parseStr ((escChar c ++ escBody cs) ++ rest) = _
    rw [List.append_assoc]
    by_cases h1 : c = '"'
    · subst h1
      rw [show escChar '"' = ['\\', '"'] by decide]
      simp only [List.cons_append, List.nil_append]
      rw [parseStr_step_esc, parseEsc_simple '"' '"' (by decide) (by decide), ih]
      rfl
    all_goals by_cases h2 : c = '\\'
    · subst h2
      rw [show escChar '\\' = ['\\', '\\'] by decide]
      simp only [List.cons_append, List.nil_append]
      rw [parseStr_step_esc, parseEsc_simple '\\' '\\' (by decide) (by decide), ih]
      rfl
    all_goals by_cases h3 : c = '\x08'
    · subst h3
      rw [show escChar '\x08' = ['\\', 'b'] by decide]
      simp only [List.cons_append, List.nil_append]
      rw [parseStr_step_esc, parseEsc_simple 'b' '\x08' (by decide) (by decide), ih]
      rfl
    all_goals by_cases h4 : c = '\x0c'
    · subst h4
      rw [show escChar '\x0c' = ['\\', 'f'] by decide]
      simp only [List.cons_append, List.nil_append]
      rw [parseStr_step_esc, parseEsc_simple 'f' '\x0c' (by decide) (by decide), ih]
      rfl
    all_goals by_cases h5 : c = '\n'
    · subst h5
      rw [show escChar '\n' = ['\\', 'n'] by decide]
      simp only [List.cons_append, List.nil_append]
      rw [parseStr_step_esc, parseEsc_simple 'n' '\n' (by decide) (by decide), ih]
      rfl
    all_goals by_cases h6 : c = '\r'
    · subst h6
      rw [show escChar '\r' = ['\\', 'r'] by decide]
      simp only [List.cons_append, List.nil_append]
      rw [parseStr_step_esc, parseEsc_simple 'r' '\r' (by decide) (by decide), ih]
      rfl
    all_goals by_cases h7 : c = '\t'
    · subst h7
      rw [show escChar '\t' = ['\\', 't'] by decide]
      simp only [List.cons_append, List.nil_append]
      rw [parseStr_step_esc, parseEsc_simple 't' '\t' (by decide) (by decide), ih]
      rfl
    all_goals by_cases h8 : 0x20 ≤ c.toNat ∧ c.toNat ≤ 0x7e
    · have he : escChar c = [c] := by
        unfold escChar
        rw [if_neg h1, if_neg h2, if_neg h3, if_neg h4, if_neg h5, if_neg h6, if_neg h7,
          if_pos h8]
      rw [he]
      simp only [List.cons_append, List.nil_append]
      rw [parseStr_step_lit c _ h1 h2 (by omega), ih]
      rfl
    all_goals by_cases h9 : c.toNat < 0x10000
    · have he : escChar c = '\\' :: 'u' :: hex4 c.toNat := by
        unfold escChar
        rw [if_neg h1, if_neg h2, if_neg h3, if_neg h4, if_neg h5, if_neg h6, if_neg h7,
          if_neg h8, if_pos h9]
      have hval := char_valid c
      have hs1 : ¬ (0xd800 ≤ c.toNat ∧ c.toNat < 0xdc00) := by
        rcases hval with hv | ⟨hv1, hv2⟩ <;> omega
      have hs2 : ¬ (0xdc00 ≤ c.toNat ∧ c.toNat < 0xe000) := by
        rcases hval with hv | ⟨hv1, hv2⟩ <;> omega
      rw [he]
      simp only [hex4, List.cons_append, List.nil_append]
      rw [parseStr_step_esc, parseEsc_u _ _ _ _ _ _ (parseHex4_hex4 _ h9) hs1 hs2, ih]
      simp only [Option.map_some']
      rw [Char.ofNat_toNat]
    · have he : escChar c = ('\\' :: 'u' :: hex4 (0xd800 + (c.toNat - 0x10000) / 0x400)) ++
          ('\\' :: 'u' :: hex4 (0xdc00 + (c.toNat - 0x10000) % 0x400)) := by
        unfold escChar
        rw [if_neg h1, if_neg h2, if_neg h3, if_neg h4, if_neg h5, if_neg h6, if_neg h7,
          if_neg h8, if_neg h9]
      have hval := char_valid c
      have hub : c.toNat < 0x110000 := by
        rcases hval with hv | ⟨hv1, hv2⟩ <;> omega
      have hhi : 0xd800 + (c.toNat - 0x10000) / 0x400 < 0x10000 := by omega
      have hlo : 0xdc00 + (c.toNat - 0x10000) % 0x400 < 0x10000 := by omega
      rw [he]
      simp only [hex4, List.cons_append, List.nil_append]
      rw [parseStr_step_esc,
        parseEsc_u_pair _ _ _ _ _ _ _ _ _ (parseHex4_hex4 _ hhi) (parseHex4_hex4 _ hlo)
          (by omega) (by omega), ih]
      simp only [Option.map_some']
      have harith : 0x10000 + (0xd800 + (c.toNat - 0x10000) / 0x400 - 0xd800) * 0x400 +
          (0xdc00 + (c.toNat - 0x10000) % 0x400 - 0xdc00) = c.toNat := by omega
      rw [harith, Char.ofNat_toNat]


theorem allWs_nil : AllWs [] := by intro c hc; cases hc

theorem allWs_nlInd (k : Nat) : AllWs (nlInd k) := by
  intro c hc
  rw [nlInd] at hc
  rcases List.mem_cons.mp hc with hc | hc
  · subst hc; rfl
  · rw [List.eq_of_mem_replicate hc]; rfl

theorem allWs_space : AllWs [' '] := by
  intro c hc
  simp at hc
  subst hc
  rfl

theorem skipWs_allWs {ws : List Char} (h : AllWs ws) (s : List Char) :
    skipWs (ws ++ s) = skipWs s := by
  induction ws with
  | nil => rfl
  | cons c w ih =>
    rw [List.cons_append, skipWs, if_pos (h c (by simp))]
    exact ih (fun d hd => h d (by simp [hd]))

theorem skipWs_nonWs {c : Char} (h : isWsChar c = false) (r : List Char) :
    skipWs (c :: r) = c :: r := by
  rw [skipWs, if_neg (by simp [h])]

/-! Heads of renderings: every rendered value starts with a distinctive
non-whitespace character, and every rendered tail starts with whitespace or
a separator. -/

theorem intToChars_head (i : Int) :
    ∃ c r, intToChars i = c :: r ∧ (c = '-' ∨ isDigitCh c = true) := by
  rw [intToChars]
  by_cases h : i < 0
  · rw [if_pos h]
    exact ⟨'-', _, rfl, Or.inl rfl⟩
  · rw [if_neg h]
    obtain ⟨d, ds, hds⟩ := List.exists_cons_of_ne_nil (natDigits_ne_nil i.toNat)
    refine ⟨d, ds, hds, Or.inr ?_⟩
    have := natDigits_all_digits i.toNat d
    rw [hds] at this
    exact this (by simp)

theorem renders_head {j : Json} {s : List Char} (h : Renders j s) :
    ∃ c r, s = c :: r ∧ isWsChar c = false ∧ c ≠ ']' ∧ c ≠ '}' := by
  cases h with
  | null s hs => exact ⟨_, _, hs, by decide, by decide, by decide⟩
  | btrue s hs => exact ⟨_, _, hs, by decide, by decide, by decide⟩
  | bfalse s hs => exact ⟨_, _, hs, by decide, by decide, by decide⟩
  | num n s hs =>
    obtain ⟨c, r, hcr, hc⟩ := intToChars_head n
    subst hs
    have hcn : c.toNat = 45 ∨ (48 ≤ c.toNat ∧ c.toNat ≤ 57) := by
      rcases hc with hc | hc
      · subst hc; left; decide
      · simp [isDigitCh] at hc; right; exact hc
    refine ⟨c, r, hcr, ?_, ?_, ?_⟩
    · simp [isWsChar]; omega
    · apply char_ne_of_toNat_ne
      have : (']').toNat = 93 := by decide
      omega
    · apply char_ne_of_toNat_ne
      have : ('}').toNat = 125 := by decide
      omega
  | str cs s hs => exact ⟨_, _, hs, by decide, by decide, by decide⟩
  | arrNil s hs => exact ⟨_, _, hs, by decide, by decide, by decide⟩
  | arrCons s ws sx st x t hws hx ht hs => exact ⟨_, _, hs, by decide, by decide, by decide⟩
  | objNil s hs => exact ⟨_, _, hs, by decide, by decide, by decide⟩
  | objCons s ws1 ws3 sv st k v t h1 h3 hv ht hs =>
    exact ⟨_, _, hs, by decide, by decide, by decide⟩

theorem rendersAT_head {t : JArr} {st : List Char} (h : RendersAT t st) :
    ∃ c r, st = c :: r ∧ (isWsChar c = true ∨ c = ']' ∨ c = ',') := by
  cases h with
  | nil s ws hws hs =>
    cases ws with
    | nil => exact ⟨']', [], hs, Or.inr (Or.inl rfl)⟩
    | cons w ws' =>
      refine ⟨w, _, by simpa using hs, Or.inl (hws w (by simp))⟩
  | cons s ws sx st x t hws hx ht hs => exact ⟨',', _, hs, Or.inr (Or.inr rfl)⟩

theorem rendersOT_head {t : JObj} {st : List Char} (h : RendersOT t st) :
    ∃ c r, st = c :: r ∧ (isWsChar c = true ∨ c = '}' ∨ c = ',') := by
  cases h with
  | nil s ws hws hs =>
    cases ws with
    | nil => exact ⟨'}', [], hs, Or.inr (Or.inl rfl)⟩
    | cons w ws' =>
      refine ⟨w, _, by simpa using hs, Or.inl (hws w (by simp))⟩
  | cons s ws1 ws3 sv st k v t h1 h3 hv ht hs => exact ⟨',', _, hs, Or.inr (Or.inr rfl)⟩

theorem restSafe_sep {c : Char} (r : List Char)
    (h : isWsChar c = true ∨ c = ']' ∨ c = '}' ∨ c = ',') :
    RestSafe (c :: r) := by
  have hn : c.toNat = 32 ∨ c.toNat = 9 ∨ c.toNat = 10 ∨ c.toNat = 13 ∨
      c.toNat = 93 ∨ c.toNat = 125 ∨ c.toNat = 44 := by
    rcases h with h | h | h | h
    · simp [isWsChar] at h
      omega
    · subst h; simp
    · subst h; simp
    · subst h; simp
  refine ⟨?_, ?_, ?_, ?_⟩
  · simp [isDigitCh]; omega
  all_goals apply char_ne_of_toNat_ne
  · have : ('.').toNat = 46 := by decide
    omega
  · have : ('e').toNat = 101 := by decide
    omega
  · have : ('E').toNat = 69 := by decide
    omega

/-! ## Both serializers produce renderings -/

mutual
theorem renders_dumpsV : ∀ (lvl : Nat) (j : Json), Renders j (dumpsV lvl j)
  | _, .null => Renders.null _ (by rw [dumpsV])
  | _, .boolean true => Renders.btrue _ (by rw [dumpsV])
  | _, .boolean false => Renders.bfalse _ (by rw [dumpsV])
  | _, .num n => Renders.num n _ (by rw [dumpsV])
  | _, .str cs => Renders.str cs _ (by rw [dumpsV])
  | _, .arr .nil => Renders.arrNil _ (by rw [dumpsV])
  | lvl, .arr (.cons x t) =>
      Renders.arrCons _ _ _ _ x t (allWs_nlInd (lvl + 1))
        (renders_dumpsV (lvl + 1) x) (renders_dumpsATail lvl t) (by rw [dumpsV])
  | _, .obj .nil => Renders.objNil _ (by rw [dumpsV])
  | lvl, .obj (.cons k v t) =>
      Renders.objCons _ _ [' '] _ _ k v t (allWs_nlInd (lvl + 1)) allWs_space
        (renders_dumpsV (lvl + 1) v) (renders_dumpsOTail lvl t) (by rw [dumpsV]; simp)
theorem renders_dumpsATail : ∀ (lvl : Nat) (t : JArr), RendersAT t (dumpsATail lvl t)
  | lvl, .nil => RendersAT.nil _ (nlInd lvl) (allWs_nlInd lvl) (by rw [dumpsATail])
  | lvl, .cons x t =>
      RendersAT.cons _ _ _ _ x t (allWs_nlInd (lvl + 1))
        (renders_dumpsV (lvl + 1) x) (renders_dumpsATail lvl t) (by rw [dumpsATail])
theorem renders_dumpsOTail : ∀ (lvl : Nat) (t : JObj), RendersOT t (dumpsOTail lvl t)
  | lvl, .nil => RendersOT.nil _ (nlInd lvl) (allWs_nlInd lvl) (by rw [dumpsOTail])
  | lvl, .cons k v t =>
      RendersOT.cons _ _ [' '] _ _ k v t (allWs_nlInd (lvl + 1)) allWs_space
        (renders_dumpsV (lvl + 1) v) (renders_dumpsOTail lvl t) (by rw [dumpsOTail]; simp)
end


mutual
theorem renders_dumpsC : ∀ (j : Json), Renders j (dumpsC j)
  | .null => Renders.null _ (by rw [dumpsC])
  | .boolean true => Renders.btrue _ (by rw [dumpsC])
  | .boolean false => Renders.bfalse _ (by rw [dumpsC])
  | .num n => Renders.num n _ (by rw [dumpsC])
  | .str cs => Renders.str cs _ (by rw [dumpsC])
  | .arr .nil => Renders.arrNil _ (by rw [dumpsC])
  | .arr (.cons x t) =>
      Renders.arrCons _ [] _ _ x t allWs_nil
        (renders_dumpsC x) (renders_dumpsCATail t) (by rw [dumpsC]; simp)
  | .obj .nil => Renders.objNil _ (by rw [dumpsC])
  | .obj (.cons k v t) =>
      Renders.objCons _ [] [' '] _ _ k v t allWs_nil allWs_space
        (renders_dumpsC v) (renders_dumpsCOTail t) (by rw [dumpsC]; simp)
theorem renders_dumpsCATail : ∀ (t : JArr), RendersAT t (dumpsCATail t)
  | .nil => RendersAT.nil _ [] allWs_nil (by rw [dumpsCATail]; rfl)
  | .cons x t =>
      RendersAT.cons _ [' '] _ _ x t allWs_space
        (renders_dumpsC x) (renders_dumpsCATail t) (by rw [dumpsCATail]; simp)
theorem renders_dumpsCOTail : ∀ (t : JObj), RendersOT t (dumpsCOTail t)
  | .nil => RendersOT.nil _ [] allWs_nil (by rw [dumpsCOTail]; rfl)
  | .cons k v t =>
      RendersOT.cons _ [' '] [' '] _ _ k v t allWs_space allWs_space
        (renders_dumpsC v) (renders_dumpsCOTail t) (by rw [dumpsCOTail]; simp)
end


mutual
theorem renders_size {j : Json} {s : List Char} (h : Renders j s) :
    jsize j ≤ 2 * s.length :=
  match h with
  | .null s hs => by subst hs; simp [jsize]
  | .btrue s hs => by subst hs; simp [jsize]
  | .bfalse s hs => by subst hs; simp [jsize]
  | .num n s hs => by
      subst hs
      obtain ⟨c, r, hcr, _⟩ := intToChars_head n
      rw [hcr]
      simp [jsize]
      omega
  | .str cs s hs => by subst hs; simp [jsize]; omega
  | .arrNil s hs => by subst hs; simp [jsize, asize]
  | .arrCons s ws sx st x t hws hx ht hs => by
      subst hs
      have h1 := renders_size hx
      have h2 := rendersAT_size ht
      simp [jsize, asize]
      omega
  | .objNil s hs => by subst hs; simp [jsize, osize]
  | .objCons s ws1 ws3 sv st k v t h1 h3 hv ht hs => by
      subst hs
      have hv' := renders_size hv
      have ht' := rendersOT_size ht
      simp [jsize, osize]
      omega
theorem rendersAT_size {t : JArr} {st : List Char} (h : RendersAT t st) :
    asize t + 2 ≤ 2 * st.length :=
  match h with
  | .nil s ws hws hs => by subst hs; simp [asize]
  | .cons s ws sx st x t hws hx ht hs => by
      subst hs
      have h1 := renders_size hx
      have h2 := rendersAT_size ht
      simp [asize]
      omega
theorem rendersOT_size {t : JObj} {st : List Char} (h : RendersOT t st) :
    osize t + 2 ≤ 2 * st.length :=
  match h with
  | .nil s ws hws hs => by subst hs; simp [osize]
  | .cons s ws1 ws3 sv st k v t h1 h3 hv ht hs => by
      subst hs
      have hv' := renders_size hv
      have ht' := rendersOT_size ht
      simp [osize]
      omega
end


theorem restSafe_append_AT {t : JArr} {st : List Char} (h : RendersAT t st)
    (rest : List Char) : RestSafe (st ++ rest) := by
  obtain ⟨c, r, hcr, hc⟩ := rendersAT_head h
  subst hcr
  exact restSafe_sep _ (by rcases hc with hc | hc | hc <;> simp [hc])

theorem restSafe_append_OT {t : JObj} {st : List Char} (h : RendersOT t st)
    (rest : List Char) : RestSafe (st ++ rest) := by
  obtain ⟨c, r, hcr, hc⟩ := rendersOT_head h
  subst hcr
  exact restSafe_sep _ (by rcases hc with hc | hc | hc <;> simp [hc])

theorem stripPre_append (kw rest : List Char) : stripPre kw (kw ++ rest) = some rest := by
  induction kw with
  | nil => rfl
  | cons k ks ih => rw [List.cons_append, stripPre, if_pos rfl, ih]

mutual
theorem parse_renders {j : Json} {s : List Char} (h : Renders j s) :
    ∀ (rest : List Char) (fuel : Nat), jsize j ≤ fuel → RestSafe rest →
      parseValue fuel (s ++ rest) = some (j, rest) :=
  match h with
  | .null s hs => by
      intro rest fuel hf hr
      subst hs
      obtain ⟨f, rfl⟩ : ∃ f, fuel = f + 1 := ⟨fuel - 1, by simp [jsize] at hf; omega⟩
      simp only [List.cons_append, List.nil_append]
      rw [parseValue, if_neg (by decide), if_neg (by decide), if_neg (by decide),
        if_pos rfl]
      rw [show ('u' :: 'l' :: 'l' :: rest) = ['u', 'l', 'l'] ++ rest by rfl,
        stripPre_append]
      rfl
  | .btrue s hs => by
      intro rest fuel hf hr
      subst hs
      obtain ⟨f, rfl⟩ : ∃ f, fuel = f + 1 := ⟨fuel - 1, by simp [jsize] at hf; omega⟩
      simp only [List.cons_append, List.nil_append]
      rw [parseValue, if_neg (by decide), if_neg (by decide), if_neg (by decide),
        if_neg (by decide), if_pos rfl]
      rw [show ('r' :: 'u' :: 'e' :: rest) = ['r', 'u', 'e'] ++ rest by rfl,
        stripPre_append]
      rfl
  | .bfalse s hs => by
      intro rest fuel hf hr
      subst hs
      obtain ⟨f, rfl⟩ : ∃ f, fuel = f + 1 := ⟨fuel - 1, by simp [jsize] at hf; omega⟩
      simp only [List.cons_append, List.nil_append]
      rw [parseValue, if_neg (by decide), if_neg (by decide), if_neg (by decide),
        if_neg (by decide), if_neg (by decide), if_pos rfl]
      rw [show ('a' :: 'l' :: 's' :: 'e' :: rest) = ['a', 'l', 's', 'e'] ++ rest by rfl,
        stripPre_append]
      rfl
  | .num n s hs => by
      intro rest fuel hf hr
      subst hs
      obtain ⟨f, rfl⟩ : ∃ f, fuel = f + 1 := ⟨fuel - 1, by simp [jsize] at hf; omega⟩
      obtain ⟨c, r, hcr, hc⟩ := intToChars_head n
      have hcn : c.toNat = 45 ∨ (48 ≤ c.toNat ∧ c.toNat ≤ 57) := by
        rcases hc with hc | hc
        · subst hc; left; decide
        · simp [isDigitCh] at hc; right; exact hc
      rw [hcr, List.cons_append, parseValue]
      rw [if_neg (char_ne_of_toNat_ne (by simp; omega)),
        if_neg (char_ne_of_toNat_ne (by simp; omega)),
        if_neg (char_ne_of_toNat_ne (by simp; omega)),
        if_neg (char_ne_of_toNat_ne (by simp; omega)),
        if_neg (char_ne_of_toNat_ne (by simp; omega)),
        if_neg (char_ne_of_toNat_ne (by simp; omega))]
      rw [show c :: (r ++ rest) = intToChars n ++ rest by rw [hcr, List.cons_append]]
      rw [parseNumber_intToChars n rest hr]
      rfl
  | .str cs s hs => by
      intro rest fuel hf hr
      subst hs
      obtain ⟨f, rfl⟩ : ∃ f, fuel = f + 1 := ⟨fuel - 1, by simp [jsize] at hf; omega⟩
      rw [List.cons_append, parseValue, if_pos rfl, parseStr_escBody]
      rfl
  | .arrNil s hs => by
      intro rest fuel hf hr
      subst hs
      obtain ⟨f, rfl⟩ : ∃ f, fuel = f + 1 := ⟨fuel - 1, by simp [jsize] at hf; omega⟩
      obtain ⟨f2, rfl⟩ : ∃ f2, f = f2 + 1 := ⟨f - 1, by simp [jsize, asize] at hf; omega⟩
      simp only [List.cons_append, List.nil_append]
      rw [parseValue, if_neg (by decide), if_neg (by decide), if_pos rfl]
      rw [skipWs_nonWs (by decide), parseArrBody, if_pos rfl]
  | .arrCons s ws sx st x t hws hx ht hs => by
      intro rest fuel hf hr
      subst hs
      obtain ⟨f, rfl⟩ : ∃ f, fuel = f + 1 := ⟨fuel - 1, by
        simp [jsize, asize] at hf; omega⟩
      obtain ⟨f2, rfl⟩ : ∃ f2, f = f2 + 1 := ⟨f - 1, by simp [jsize, asize] at hf; omega⟩
      rw [List.cons_append, parseValue]
      rw [if_neg (by decide), if_neg (by decide), if_pos rfl]
      obtain ⟨cx, rx, hcx, hcxw, hcxr, _⟩ := renders_head hx
      have hskip : skipWs ((ws ++ sx ++ st) ++ rest) = sx ++ (st ++ rest) := by
        rw [List.append_assoc, List.append_assoc, skipWs_allWs hws, hcx,
          List.cons_append, skipWs_nonWs hcxw]
      rw [hskip, hcx, List.cons_append, parseArrBody]
      rw [if_neg hcxr]
      rw [← List.cons_append, ← hcx]
      rw [parse_rendersAT ht x sx (parse_renders hx) rest f2
        (by simp [jsize, asize] at hf; omega) hr]
      rfl
  | .objNil s hs => by
      intro rest fuel hf hr
      subst hs
      obtain ⟨f, rfl⟩ : ∃ f, fuel = f + 1 := ⟨fuel - 1, by simp [jsize] at hf; omega⟩
      obtain ⟨f2, rfl⟩ : ∃ f2, f = f2 + 1 := ⟨f - 1, by simp [jsize, osize] at hf; omega⟩
      simp only [List.cons_append, List.nil_append]
      rw [parseValue, if_neg (by decide), if_pos rfl]
      rw [skipWs_nonWs (by decide), parseObjBody, if_pos rfl]
  | .objCons s ws1 ws3 sv st k v t h1 h3 hv ht hs => by
      intro rest fuel hf hr
      subst hs
      obtain ⟨f, rfl⟩ : ∃ f, fuel = f + 1 := ⟨fuel - 1, by
        simp [jsize, osize] at hf; omega⟩
      obtain ⟨f2, rfl⟩ : ∃ f2, f = f2 + 1 := ⟨f - 1, by simp [jsize, osize] at hf; omega⟩
      rw [List.cons_append, parseValue, if_pos rfl]
      have hre : (ws1 ++ ('"' :: escBody k) ++ ':' :: (ws3 ++ sv ++ st)) ++ rest =
          ws1 ++ ('"' :: (escBody k ++ (':' :: (ws3 ++ (sv ++ (st ++ rest)))))) := by
        simp [List.append_assoc]
      rw [hre, skipWs_allWs h1, skipWs_nonWs (by decide)]
      rw [parseObjBody, if_neg (by decide)]
      rw [show ('"' :: (escBody k ++ (':' :: (ws3 ++ (sv ++ (st ++ rest)))))) =
          ('"' :: escBody k) ++ ((':' :: (ws3 ++ sv ++ st)) ++ rest)
          by simp [List.append_assoc]]
      rw [parse_rendersOT ht k v sv ws3 h3 (parse_renders hv) (renders_head hv) rest f2
        (by simp [jsize, osize] at hf; omega) hr]
      rfl
theorem parse_rendersAT {t : JArr} {st : List Char} (h : RendersAT t st) :
    ∀ (x : Json) (sx : List Char),
      (∀ (rest : List Char) (fuel : Nat), jsize x ≤ fuel → RestSafe rest →
        parseValue fuel (sx ++ rest) = some (x, rest)) →
      ∀ (rest : List Char) (fuel : Nat), 2 + jsize x + asize t ≤ fuel → RestSafe rest →
        parseArrElems fuel (sx ++ (st ++ rest)) = some (JArr.cons x t, rest) :=
  match h with
  | .nil s ws hws hs => by
      intro x sx hsx rest fuel hf hr
      subst hs
      obtain ⟨f, rfl⟩ : ∃ f, fuel = f + 1 := ⟨fuel - 1, by omega⟩
      obtain ⟨f2, rfl⟩ : ∃ f2, f = f2 + 1 := ⟨f - 1, by omega⟩
      rw [parseArrElems]
      rw [hsx ((ws ++ [']']) ++ rest) (f2 + 1) (by omega)
        (restSafe_append_AT (RendersAT.nil _ ws hws rfl) rest)]
      simp only [Option.some_bind]
      rw [show (ws ++ [']']) ++ rest = ws ++ (']' :: rest) by simp]
      rw [skipWs_allWs hws, skipWs_nonWs (by decide)]
      rw [parseArrSep, if_pos rfl]
  | .cons s ws sx' st' x' t' hws hx' ht' hs => by
      intro x sx hsx rest fuel hf hr
      subst hs
      obtain ⟨f, rfl⟩ : ∃ f, fuel = f + 1 := ⟨fuel - 1, by omega⟩
      obtain ⟨f2, rfl⟩ : ∃ f2, f = f2 + 1 := ⟨f - 1, by omega⟩
      rw [parseArrElems]
      rw [hsx ((',' :: (ws ++ sx' ++ st')) ++ rest) (f2 + 1) (by omega)
        (restSafe_append_AT (RendersAT.cons _ ws sx' st' x' t' hws hx' ht' rfl) rest)]
      simp only [Option.some_bind]
      rw [List.cons_append, skipWs_nonWs (by decide)]
      rw [parseArrSep, if_neg (by decide), if_pos rfl]
      obtain ⟨cx, rx, hcx, hcxw, _, _⟩ := renders_head hx'
      have hskip : skipWs ((ws ++ sx' ++ st') ++ rest) = sx' ++ (st' ++ rest) := by
        rw [List.append_assoc, List.append_assoc, skipWs_allWs hws, hcx,
          List.cons_append, skipWs_nonWs hcxw]
      rw [hskip]
      rw [parse_rendersAT ht' x' sx' (parse_renders hx') rest f2
        (by simp [asize] at hf ⊢; omega) hr]
      rfl
theorem parse_rendersOT {t : JObj} {st : List Char} (h : RendersOT t st) :
    ∀ (k : List Char) (v : Json) (sv ws3 : List Char), AllWs ws3 →
      (∀ (rest : List Char) (fuel : Nat), jsize v ≤ fuel → RestSafe rest →
        parseValue fuel (sv ++ rest) = some (v, rest)) →
      (∃ c r, sv = c :: r ∧ isWsChar c = false ∧ c ≠ ']' ∧ c ≠ '}') →
      ∀ (rest : List Char) (fuel : Nat), 3 + jsize v + osize t ≤ fuel → RestSafe rest →
        parseObjPairs fuel (('"' :: escBody k) ++ ((':' :: (ws3 ++ sv ++ st)) ++ rest)) =
          some (JObj.cons k v t, rest) :=
  match h with
  | .nil s ws hws hs => by
      intro k v sv ws3 hws3 hsv hsvh rest fuel hf hr
      subst hs
      obtain ⟨f, rfl⟩ : ∃ f, fuel = f + 1 := ⟨fuel - 1, by omega⟩
      obtain ⟨f2, rfl⟩ : ∃ f2, f = f2 + 1 := ⟨f - 1, by omega⟩
      obtain ⟨f3, rfl⟩ : ∃ f3, f2 = f3 + 1 := ⟨f2 - 1, by omega⟩
      rw [List.cons_append, parseObjPairs, if_pos rfl, parseStr_escBody]
      simp only [Option.some_bind]
      rw [List.cons_append, skipWs_nonWs (by decide)]
      rw [parseAfterKey, if_pos rfl]
      obtain ⟨cv, rv, hcv, hcvw, _, _⟩ := hsvh
      have hskip : skipWs ((ws3 ++ sv ++ (ws ++ ['}'])) ++ rest) =
          sv ++ ((ws ++ ['}']) ++ rest) := by
        rw [List.append_assoc, List.append_assoc, skipWs_allWs hws3, hcv,
          List.cons_append, skipWs_nonWs hcvw]
      rw [hskip]
      rw [hsv ((ws ++ ['}']) ++ rest) (f3 + 1) (by omega)
        (restSafe_append_OT (RendersOT.nil _ ws hws rfl) rest)]
      simp only [Option.some_bind]
      rw [show (ws ++ ['}']) ++ rest = ws ++ ('}' :: rest) by simp]
      rw [skipWs_allWs hws, skipWs_nonWs (by decide)]
      rw [parseAfterVal, if_pos rfl]
  | .cons s ws1 ws3' sv' st' k' v' t' h1 h3' hv' ht' hs => by
      intro k v sv ws3 hws3 hsv hsvh rest fuel hf hr
      subst hs
      obtain ⟨f, rfl⟩ : ∃ f, fuel = f + 1 := ⟨fuel - 1, by omega⟩
      obtain ⟨f2, rfl⟩ : ∃ f2, f = f2 + 1 := ⟨f - 1, by simp [osize] at hf; omega⟩
      obtain ⟨f3, rfl⟩ : ∃ f3, f2 = f3 + 1 := ⟨f2 - 1, by simp [osize] at hf; omega⟩
      rw [List.cons_append, parseObjPairs, if_pos rfl, parseStr_escBody]
      simp only [Option.some_bind]
      rw [List.cons_append, skipWs_nonWs (by decide)]
      rw [parseAfterKey, if_pos rfl]
      obtain ⟨cv, rv, hcv, hcvw, _, _⟩ := hsvh
      have hskip : skipWs ((ws3 ++ sv ++
          (',' :: (ws1 ++ ('"' :: escBody k') ++ ':' :: (ws3' ++ sv' ++ st')))) ++ rest) =
          sv ++ ((',' :: (ws1 ++ ('"' :: escBody k') ++ ':' :: (ws3' ++ sv' ++ st'))) ++
            rest) := by
        rw [List.append_assoc, List.append_assoc, skipWs_allWs hws3, hcv,
          List.cons_append, skipWs_nonWs hcvw]
      rw [hskip]
      rw [hsv ((',' :: (ws1 ++ ('"' :: escBody k') ++ ':' :: (ws3' ++ sv' ++ st'))) ++ rest)
        (f3 + 1) (by omega)
        (restSafe_append_OT (RendersOT.cons _ ws1 ws3' sv' st' k' v' t' h1 h3' hv' ht' rfl)
          rest)]
      simp only [Option.some_bind]
      rw [List.cons_append, skipWs_nonWs (by decide)]
      rw [parseAfterVal, if_neg (by decide), if_pos rfl]
      have hre : (ws1 ++ ('"' :: escBody k') ++ ':' :: (ws3' ++ sv' ++ st')) ++ rest =
          ws1 ++ ('"' :: (escBody k' ++ (':' :: (ws3' ++ (sv' ++ (st' ++ rest)))))) := by
        simp [List.append_assoc]
      rw [hre, skipWs_allWs h1, skipWs_nonWs (by decide)]
      rw [show ('"' :: (escBody k' ++ (':' :: (ws3' ++ (sv' ++ (st' ++ rest)))))) =
          ('"' :: escBody k') ++ ((':' :: (ws3' ++ sv' ++ st')) ++ rest)
          by simp [List.append_assoc]]
      rw [parse_rendersOT ht' k' v' sv' ws3' h3' (parse_renders hv') (renders_head hv')
        rest f3 (by simp [osize] at hf ⊢; omega) hr]
      rfl
end


theorem loads_renders {j : Json} {s : List Char} (h : Renders j s) :
    loads s = some j := by
  obtain ⟨c, r, hcr, hcw, _, _⟩ := renders_head h
  have hsize := renders_size h
  have hp := parse_renders h [] (2 * s.length + 1) (by omega) trivial
  rw [List.append_nil] at hp
  rw [loads]
  rw [show skipWs s = s by rw [hcr]; exact skipWs_nonWs hcw r]
  rw [hp]
  rfl

theorem loads_dumps0 (j : Json) : loads (dumps0 j) = some j :=
  loads_renders (renders_dumpsV 0 j)

theorem loads_dumpsC (j : Json) : loads (dumpsC j) = some j :=
  loads_renders (renders_dumpsC j)

theorem dumpsC_inj {a b : Json} (h : dumpsC a = dumpsC b) : a = b := by
  have ha := loads_dumpsC a
  rw [h, loads_dumpsC b] at ha
  injection ha with ha2
  exact ha2.symm

theorem utf8Encode_ascii {cs : List Char} (h : AsciiStr cs) :
    utf8Encode cs = cs.map Char.toNat := by
  induction cs with
  | nil => rfl
  | cons c r ih =>
    rw [utf8Encode, utf8EncodeChar]
    simp only [if_pos (h c (by simp))]
    rw [ih (fun d hd => h d (by simp [hd]))]
    rfl

theorem utf8DecodeAux_ascii (cs : List Char) : ∀ (fuel : Nat), AsciiStr cs →
    cs.length ≤ fuel → utf8DecodeAux fuel (cs.map Char.toNat) = some cs := by
  induction cs with
  | nil =>
    intro fuel _ _
    rw [List.map_nil, utf8DecodeAux]
  | cons c r ih =>
    intro fuel hascii hlen
    obtain ⟨f, rfl⟩ : ∃ f, fuel = f + 1 := ⟨fuel - 1, by simp at hlen; omega⟩
    rw [List.map_cons, utf8DecodeAux, if_pos (hascii c (by simp))]
    rw [ih f (fun d hd => hascii d (by simp [hd])) (by simp at hlen; omega)]
    rw [Char.ofNat_toNat]
    rfl

theorem utf8Decode_encode {cs : List Char} (h : AsciiStr cs) :
    utf8Decode (utf8Encode cs) = some cs := by
  rw [utf8Encode_ascii h, utf8Decode]
  exact utf8DecodeAux_ascii cs _ h (by simp)

/-! `json.dumps(…, indent=2)` output is pure ASCII (`ensure_ascii=True`). -/

theorem hexDigitChar_ascii (d : Nat) (h : d < 16) : (hexDigitChar d).toNat < 0x80 := by
  rw [hexDigitChar]
  by_cases h10 : d < 10
  · rw [if_pos h10, char_toNat_ofNat_small (by omega)]; omega
  · rw [if_neg h10, char_toNat_ofNat_small (by omega)]; omega

theorem hex4_ascii {n : Nat} (h : n < 0x10000) : AsciiStr (hex4 n) := by
  intro c hc
  rw [hex4] at hc
  simp at hc
  rcases hc with hc | hc | hc | hc <;> subst hc <;>
    exact hexDigitChar_ascii _ (by omega)

theorem escChar_ascii (c : Char) : AsciiStr (escChar c) := by
  intro d hd
  rw [escChar] at hd
  split_ifs at hd with h1 h2 h3 h4 h5 h6 h7 h8 h9
  · fin_cases hd <;> decide
  · fin_cases hd <;> decide
  · fin_cases hd <;> decide
  · fin_cases hd <;> decide
  · fin_cases hd <;> decide
  · fin_cases hd <;> decide
  · fin_cases hd <;> decide
  · fin_cases hd; omega
  · rcases List.mem_cons.mp hd with hd | hd
    · subst hd; decide
    rcases List.mem_cons.mp hd with hd | hd
    · subst hd; decide
    exact hex4_ascii h9 d hd
  · have hub : c.toNat < 0x110000 := by
      have := char_valid c
      rcases this with hv | ⟨hv1, hv2⟩ <;> omega
    rcases List.mem_append.mp hd with hd | hd
    · rcases List.mem_cons.mp hd with hd | hd
      · subst hd; decide
      rcases List.mem_cons.mp hd with hd | hd
      · subst hd; decide
      exact hex4_ascii (by omega) d hd
    · rcases List.mem_cons.mp hd with hd | hd
      · subst hd; decide
      rcases List.mem_cons.mp hd with hd | hd
      · subst hd; decide
      exact hex4_ascii (by omega) d hd

theorem escBody_ascii (cs : List Char) : AsciiStr (escBody cs) := by
  induction cs with
  | nil => intro d hd; simp [escBody] at hd; subst hd; decide
  | cons c r ih =>
    intro d hd
    rw [escBody] at hd
    rcases List.mem_append.mp hd with hd | hd
    · exact escChar_ascii c d hd
    · exact ih d hd

theorem intToChars_ascii (i : Int) : AsciiStr (intToChars i) := by
  intro d hd
  rw [intToChars] at hd
  have hdig : ∀ e ∈ natDigits i.toNat, Char.toNat e < 0x80 := by
    intro e he
    have := natDigits_all_digits i.toNat e he
    simp [isDigitCh] at this
    omega
  split_ifs at hd with h
  · rcases List.mem_cons.mp hd with hd | hd
    · subst hd; decide
    · have := natDigits_all_digits (-i).toNat d hd
      simp [isDigitCh] at this
      omega
  · exact hdig d hd

theorem allWs_ascii {ws : List Char} (h : AllWs ws) : AsciiStr ws := by
  intro d hd
  have := h d hd
  simp [isWsChar] at this
  omega

mutual
theorem dumpsV_ascii : ∀ (lvl : Nat) (j : Json), AsciiStr (dumpsV lvl j)
  | _, .null => by intro d hd; rw [dumpsV] at hd; fin_cases hd <;> decide
  | _, .boolean true => by intro d hd; rw [dumpsV] at hd; fin_cases hd <;> decide
  | _, .boolean false => by intro d hd; rw [dumpsV] at hd; fin_cases hd <;> decide
  | _, .num n => by rw [dumpsV]; exact intToChars_ascii n
  | _, .str cs => by
      intro d hd
      rw [dumpsV] at hd
      rcases List.mem_cons.mp hd with hd | hd
      · subst hd; decide
      · exact escBody_ascii cs d hd
  | _, .arr .nil => by intro d hd; rw [dumpsV] at hd; fin_cases hd <;> decide
  | lvl, .arr (.cons x t) => by
      intro d hd
      rw [dumpsV] at hd
      rcases List.mem_cons.mp hd with hd | hd
      · subst hd; decide
      rcases List.mem_append.mp hd with hd | hd
      rcases List.mem_append.mp hd with hd | hd
      · exact allWs_ascii (allWs_nlInd (lvl + 1)) d hd
      · exact dumpsV_ascii (lvl + 1) x d hd
      · exact dumpsATail_ascii lvl t d hd
  | _, .obj .nil => by intro d hd; rw [dumpsV] at hd; fin_cases hd <;> decide
  | lvl, .obj (.cons k v t) => by
      intro d hd
      rw [dumpsV] at hd
      rcases List.mem_cons.mp hd with hd | hd
      · subst hd; decide
      rcases List.mem_append.mp hd with hd | hd
      rcases List.mem_append.mp hd with hd | hd
      · exact allWs_ascii (allWs_nlInd (lvl + 1)) d hd
      · rcases List.mem_cons.mp hd with hd | hd
        · subst hd; decide
        · exact escBody_ascii k d hd
      · rcases List.mem_cons.mp hd with hd | hd
        · subst hd; decide
        rcases List.mem_cons.mp hd with hd | hd
        · subst hd; decide
        rcases List.mem_append.mp hd with hd | hd
        · exact dumpsV_ascii (lvl + 1) v d hd
        · exact dumpsOTail_ascii lvl t d hd
theorem dumpsATail_ascii : ∀ (lvl : Nat) (t : JArr), AsciiStr (dumpsATail lvl t)
  | lvl, .nil => by
      intro d hd
      rw [dumpsATail] at hd
      rcases List.mem_append.mp hd with hd | hd
      · exact allWs_ascii (allWs_nlInd lvl) d hd
      · simp at hd; subst hd; decide
  | lvl, .cons x t => by
      intro d hd
      rw [dumpsATail] at hd
      rcases List.mem_cons.mp hd with hd | hd
      · subst hd; decide
      rcases List.mem_append.mp hd with hd | hd
      rcases List.mem_append.mp hd with hd | hd
      · exact allWs_ascii (allWs_nlInd (lvl + 1)) d hd
      · exact dumpsV_ascii (lvl + 1) x d hd
      · exact dumpsATail_ascii lvl t d hd
theorem dumpsOTail_ascii : ∀ (lvl : Nat) (t : JObj), AsciiStr (dumpsOTail lvl t)
  | lvl, .nil => by
      intro d hd
      rw [dumpsOTail] at hd
      rcases List.mem_append.mp hd with hd | hd
      · exact allWs_ascii (allWs_nlInd lvl) d hd
      · simp at hd; subst hd; decide
  | lvl, .cons k v t => by
      intro d hd
      rw [dumpsOTail] at hd
      rcases List.mem_cons.mp hd with hd | hd
      · subst hd; decide
      rcases List.mem_append.mp hd with hd | hd
      rcases List.mem_append.mp hd with hd | hd
      · exact allWs_ascii (allWs_nlInd (lvl + 1)) d hd
      · rcases List.mem_cons.mp hd with hd | hd
        · subst hd; decide
        · exact escBody_ascii k d hd
      · rcases List.mem_cons.mp hd with hd | hd
        · subst hd; decide
        rcases List.mem_cons.mp hd with hd | hd
        · subst hd; decide
        rcases List.mem_append.mp hd with hd | hd
        · exact dumpsV_ascii (lvl + 1) v d hd
        · exact dumpsOTail_ascii lvl t d hd
end


theorem dumps0_ascii (j : Json) : AsciiStr (dumps0 j) := dumpsV_ascii 0 j

theorem start_unbordered : Unbordered CONFIG_MARKER_START := by decide

theorem end_unbordered : Unbordered CONFIG_MARKER_END := by decide

theorem start_ne_nil : CONFIG_MARKER_START ≠ [] := by decide

theorem end_ne_nil : CONFIG_MARKER_END ≠ [] := by decide

theorem end_not_in_start : subFind CONFIG_MARKER_END CONFIG_MARKER_START = none := by
  decide

theorem end_start_noOverlap : NoOverlap CONFIG_MARKER_START CONFIG_MARKER_END := by
  decide

/-- Core extraction lemma: on bytes of the shape
`pre ++ START ++ payload ++ END ++ post`, with no start marker in `pre` and
no end marker in `payload`, `extract_config` decodes and parses exactly
`payload`. -/
theorem extract_block (pre payload post : List Nat)
    (hpre : NoOccur CONFIG_MARKER_START pre)
    (hpay : NoOccur CONFIG_MARKER_END payload) :
    extract_config
        (pre ++ (CONFIG_MARKER_START ++ (payload ++ (CONFIG_MARKER_END ++ post)))) =
      (utf8Decode payload).bind loads := by
  have hfind1 : subFind CONFIG_MARKER_START
      (pre ++ (CONFIG_MARKER_START ++ (payload ++ (CONFIG_MARKER_END ++ post)))) =
      some pre.length :=
    subFind_block start_unbordered start_ne_nil hpre
  have hdrop : (pre ++ (CONFIG_MARKER_START ++ (payload ++ (CONFIG_MARKER_END ++ post)))).drop
      pre.length = CONFIG_MARKER_START ++ (payload ++ (CONFIG_MARKER_END ++ post)) :=
    List.drop_left pre _
  have hnoc2 : NoOccur CONFIG_MARKER_END (CONFIG_MARKER_START ++ payload) := by
    refine noOccur_append (noOccur_of_subFind_none end_ne_nil end_not_in_start) hpay ?_
    intro k hk1 hk2 hk3
    exact end_start_noOverlap k hk3 hk1 hk2
  have hfind2 : subFind CONFIG_MARKER_END
      (CONFIG_MARKER_START ++ (payload ++ (CONFIG_MARKER_END ++ post))) =
      some (CONFIG_MARKER_START.length + payload.length) := by
    have := @subFind_block CONFIG_MARKER_END (CONFIG_MARKER_START ++ payload) post
      end_unbordered end_ne_nil hnoc2
    rw [List.append_assoc] at this
    simpa using this
  have hfindFrom : subFindFrom CONFIG_MARKER_END
      (pre ++ (CONFIG_MARKER_START ++ (payload ++ (CONFIG_MARKER_END ++ post))))
      pre.length =
      some (CONFIG_MARKER_START.length + payload.length + pre.length) := by
    rw [subFindFrom, hdrop, hfind2]
    rfl
  rw [extract_config, hfind1]
  dsimp only
  rw [hfindFrom]
  dsimp only
  have hslice :
      ((pre ++ (CONFIG_MARKER_START ++ (payload ++ (CONFIG_MARKER_END ++ post)))).drop
        (pre.length + CONFIG_MARKER_START.length)).take
        (CONFIG_MARKER_START.length + payload.length + pre.length -
          (pre.length + CONFIG_MARKER_START.length)) = payload := by
    have h1 : pre ++ (CONFIG_MARKER_START ++ (payload ++ (CONFIG_MARKER_END ++ post))) =
        (pre ++ CONFIG_MARKER_START) ++ (payload ++ (CONFIG_MARKER_END ++ post)) := by
      rw [List.append_assoc]
    rw [h1]
    have h2 : (pre ++ CONFIG_MARKER_START).length =
        pre.length + CONFIG_MARKER_START.length := by simp
    rw [← h2, List.drop_left]
    have h3 : CONFIG_MARKER_START.length + payload.length + pre.length -
        (pre ++ CONFIG_MARKER_START).length = payload.length := by simp; omega
    rw [h3, List.take_left]
  rw [hslice]

/-- Every successful embedding has block shape: some prefix with no start
marker, then `START ++ payload ++ END`, then some suffix. -/
theorem embed_ok_shape {template_data : List Nat} {config_data : Json}
    {out : List Nat} (hok : embed_config template_data config_data = .ok out) :
    ∃ pre post, out = pre ++ (CONFIG_MARKER_START ++
        (utf8Encode (dumps0 config_data) ++ (CONFIG_MARKER_END ++ post))) ∧
      NoOccur CONFIG_MARKER_START pre := by
  rw [embed_config] at hok
  cases hfs : subFind CONFIG_MARKER_START template_data with
  | none =>
    rw [hfs] at hok
    dsimp only at hok
    injection hok with hout
    refine ⟨template_data, [], ?_, noOccur_of_subFind_none start_ne_nil hfs⟩
    rw [← hout]
    simp
  | some start_idx =>
    rw [hfs] at hok
    dsimp only at hok
    cases hfe : subFindFrom CONFIG_MARKER_END template_data start_idx with
    | none => rw [hfe] at hok; cases hok
    | some end_idx =>
      rw [hfe] at hok
      dsimp only at hok
      injection hok with hout
      obtain ⟨hlw, hmin⟩ := subFind_eq_some _ _ hfs
      refine ⟨template_data.take start_idx,
        template_data.drop (end_idx + CONFIG_MARKER_END.length), ?_,
        noOccur_take start_ne_nil hmin⟩
      rw [← hout]
      simp [List.append_assoc]

/-- Round trip through the markers: a successful embed followed by extract
returns the configuration, whenever the end marker does not occur in the
serialized configuration bytes. -/
theorem extract_embed {template_data : List Nat} {config_data : Json}
    {out : List Nat} (hok : embed_config template_data config_data = .ok out)
    (hD : subFind CONFIG_MARKER_END (utf8Encode (dumps0 config_data)) = none) :
    extract_config out = some config_data := by
  obtain ⟨pre, post, hshape, hpre⟩ := embed_ok_shape hok
  rw [hshape, extract_block pre _ post hpre (noOccur_of_subFind_none end_ne_nil hD)]
  rw [utf8Decode_encode (dumps0_ascii config_data)]
  rw [Option.some_bind, loads_dumps0]

theorem embed_ok_of_provision {t : List Nat} (d : Json)
    (h : markerProvision t = true) : ∃ out, embed_config t d = .ok out := by
  rw [embed_config]
  cases hfs : subFind CONFIG_MARKER_START t with
  | none => exact ⟨_, rfl⟩
  | some i =>
    dsimp only
    rw [markerProvision, hfs] at h
    dsimp only at h
    cases hfe : subFindFrom CONFIG_MARKER_END t i with
    | none => rw [hfe] at h; simp at h
    | some e => exact ⟨_, rfl⟩

/-- C1 (corrected): the round trip `extract (embed template D) = D` holds under
the claim's proviso on the template, but only with the additional restriction
that the serialized configuration does not itself contain the end-marker byte
string; a configuration whose JSON text smuggles the marker is truncated on
extraction (see the counterexample). -/
theorem claim_C1 (template : List Nat) (d : Json)
    (hprov : markerProvision template = true)
    (hD : subFind CONFIG_MARKER_END (utf8Encode (dumps0 d)) = none) :
    embedExtract template d = some d := by
  obtain ⟨out, hok⟩ := embed_ok_of_provision d hprov
  rw [embedExtract, hok]
  exact extract_embed hok hD

theorem claim_C1_witness :
    markerProvision tplPlainW = true ∧
    subFind CONFIG_MARKER_END (utf8Encode (dumps0 cfgPlainW)) = none ∧
    embedExtract tplPlainW cfgPlainW = some cfgPlainW :=
  ⟨by decide, by decide, claim_C1 tplPlainW cfgPlainW (by decide) (by decide)⟩

/-- C1 counterexample: the template satisfies the claim's proviso (it has no
marker at all), yet embedding `{"a": "<<<LAUNCHFORGE_CONFIG_END>>>"}` and
extracting does not return the configuration: the payload is cut at the
smuggled end marker and the truncated JSON fails to parse. -/
theorem claim_C1_counterexample :
    markerProvision tplPlainW = true ∧ embedExtract tplPlainW cfgEndW ≠ some cfgEndW := by
  constructor
  · decide
  · decide

/-- C2 (corrected): re-embedding a second configuration does splice out the
first payload completely (same prefix and suffix, nothing left behind or
appended), and extraction then returns the second configuration — but only
when neither serialized configuration contains the end-marker byte string;
a second configuration that smuggles the marker is truncated on extraction
(see the counterexample). -/
theorem claim_C2 (template : List Nat) (d1 d2 : Json)
    (hprov : markerProvision template = true)
    (h1 : subFind CONFIG_MARKER_END (utf8Encode (dumps0 d1)) = none)
    (h2 : subFind CONFIG_MARKER_END (utf8Encode (dumps0 d2)) = none) :
    ∃ out1 out2 pre post,
      embed_config template d1 = .ok out1 ∧
      embed_config out1 d2 = .ok out2 ∧
      out1 = pre ++ (CONFIG_MARKER_START ++
        (utf8Encode (dumps0 d1) ++ (CONFIG_MARKER_END ++ post))) ∧
      out2 = pre ++ (CONFIG_MARKER_START ++
        (utf8Encode (dumps0 d2) ++ (CONFIG_MARKER_END ++ post))) ∧
      extract_config out2 = some d2 := by
  obtain ⟨out1, hok1⟩ := embed_ok_of_provision d1 hprov
  obtain ⟨pre, post, hshape, hpre⟩ := embed_ok_shape hok1
  have hfind1 : subFind CONFIG_MARKER_START out1 = some pre.length := by
    rw [hshape]; exact subFind_block start_unbordered start_ne_nil hpre
  have hnoc2 : NoOccur CONFIG_MARKER_END
      (CONFIG_MARKER_START ++ utf8Encode (dumps0 d1)) := by
    refine noOccur_append (noOccur_of_subFind_none end_ne_nil end_not_in_start)
      (noOccur_of_subFind_none end_ne_nil h1) ?_
    intro k hk1 hk2 hk3
    exact end_start_noOverlap k hk3 hk1 hk2
  have hfind2 : subFind CONFIG_MARKER_END
      (CONFIG_MARKER_START ++ (utf8Encode (dumps0 d1) ++ (CONFIG_MARKER_END ++ post))) =
      some (CONFIG_MARKER_START.length + (utf8Encode (dumps0 d1)).length) := by
    have := @subFind_block CONFIG_MARKER_END
      (CONFIG_MARKER_START ++ utf8Encode (dumps0 d1)) post
      end_unbordered end_ne_nil hnoc2
    rw [List.append_assoc] at this
    simpa using this
  have hdrop0 : out1.drop pre.length =
      CONFIG_MARKER_START ++ (utf8Encode (dumps0 d1) ++ (CONFIG_MARKER_END ++ post)) := by
    rw [hshape]; exact List.drop_left pre _
  have hfindFrom : subFindFrom CONFIG_MARKER_END out1 pre.length =
      some (CONFIG_MARKER_START.length + (utf8Encode (dumps0 d1)).length + pre.length) := by
    rw [subFindFrom, hdrop0, hfind2]
    rfl
  have hout2 : embed_config out1 d2 = .ok (pre ++ (CONFIG_MARKER_START ++
      (utf8Encode (dumps0 d2) ++ (CONFIG_MARKER_END ++ post)))) := by
    rw [embed_config, hfind1]
    dsimp only
    rw [hfindFrom]
    dsimp only
    congr 1
    have htake : out1.take pre.length = pre := by
      rw [hshape]; exact List.take_left pre _
    have hdrop : out1.drop (CONFIG_MARKER_START.length + (utf8Encode (dumps0 d1)).length +
        pre.length + CONFIG_MARKER_END.length) = post := by
      rw [hshape]
      have hassoc : pre ++ (CONFIG_MARKER_START ++
          (utf8Encode (dumps0 d1) ++ (CONFIG_MARKER_END ++ post))) =
          (pre ++ (CONFIG_MARKER_START ++ (utf8Encode (dumps0 d1) ++ CONFIG_MARKER_END))) ++
            post := by
        simp [List.append_assoc]
      rw [hassoc]
      apply List.drop_left'
      simp
      omega
    rw [htake, hdrop]
    simp [List.append_assoc]
  refine ⟨out1, _, pre, post, hok1, hout2, hshape, rfl, ?_⟩
  rw [extract_block pre (utf8Encode (dumps0 d2)) post hpre
    (noOccur_of_subFind_none end_ne_nil h2)]
  rw [utf8Decode_encode (dumps0_ascii d2), Option.some_bind]
  exact loads_dumps0 d2

theorem claim_C2_witness :
    markerProvision tplPlainW = true ∧
    subFind CONFIG_MARKER_END (utf8Encode (dumps0 cfgPlainW)) = none ∧
    subFind CONFIG_MARKER_END (utf8Encode (dumps0 cfgPlain2W)) = none ∧
    (∃ out1 out2 pre post,
      embed_config tplPlainW cfgPlainW = .ok out1 ∧
      embed_config out1 cfgPlain2W = .ok out2 ∧
      out1 = pre ++ (CONFIG_MARKER_START ++
        (utf8Encode (dumps0 cfgPlainW) ++ (CONFIG_MARKER_END ++ post))) ∧
      out2 = pre ++ (CONFIG_MARKER_START ++
        (utf8Encode (dumps0 cfgPlain2W) ++ (CONFIG_MARKER_END ++ post))) ∧
      extract_config out2 = some cfgPlain2W) :=
  ⟨by decide, by decide, by decide,
    claim_C2 tplPlainW cfgPlainW cfgPlain2W (by decide) (by decide) (by decide)⟩

/-- C2 counterexample: embedding `{"a": 1}` and then re-embedding a second
configuration whose JSON text smuggles the end-marker byte string yields bytes
whose extraction does not return that second configuration. -/
theorem claim_C2_counterexample :
    embed2Extract tplPlainW cfgPlainW cfgEndW ≠ some cfgEndW := by
  decide

/-- C3 (confirmed): on bytes whose first start marker is followed by no end
marker, `extract_config` returns `None` and `embed_config` onto those same
bytes fails with the invalid-markers error for every configuration, producing
no output bytes. -/
theorem claim_C3 (data : List Nat) (i : Nat) (d : Json)
    (hs : subFind CONFIG_MARKER_START data = some i)
    (he : subFindFrom CONFIG_MARKER_END data i = none) :
    extract_config data = none ∧
    embed_config data d = .error "Template has invalid configuration markers" := by
  constructor
  · rw [extract_config, hs]
    dsimp only
    rw [he]
  · rw [embed_config, hs]
    dsimp only
    rw [he]

theorem claim_C3_witness :
    subFind CONFIG_MARKER_START CONFIG_MARKER_START = some 0 ∧
    subFindFrom CONFIG_MARKER_END CONFIG_MARKER_START 0 = none ∧
    (extract_config CONFIG_MARKER_START = none ∧
      embed_config CONFIG_MARKER_START Json.null =
        .error "Template has invalid configuration markers") :=
  ⟨by decide, by decide, claim_C3 CONFIG_MARKER_START 0 Json.null (by decide) (by decide)⟩

/-- C4 (confirmed): `verify_embedding` returns true exactly when extraction
succeeds and the extracted configuration equals the expected one after
recursively sorting all object keys (the `json.dumps(…, sort_keys=True)`
canonical form — insensitive to key order, and whitespace never enters since
both sides are re-serialized); any extraction failure gives false. -/
theorem claim_C4 (file_data : List Nat) (expected : Json) :
    verify_embedding file_data expected = true ↔
      ∃ d, extract_config file_data = some d ∧ sortKeysJ d = sortKeysJ expected := by
  rw [verify_embedding]
  cases hx : extract_config file_data with
  | none =>
    dsimp only
    constructor
    · intro h
      cases h
    · rintro ⟨d, hd, -⟩
      cases hd
  | some d =>
    dsimp only
    rw [beq_iff_eq]
    constructor
    · intro h
      rw [dumpsCanon, dumpsCanon] at h
      exact ⟨d, rfl, dumpsC_inj h⟩
    · rintro ⟨d', hd', hsort⟩
      injection hd' with hdd
      subst hdd
      rw [dumpsCanon, dumpsCanon, hsort]

/-- C5 (corrected): when a complete marker pair is present but the bytes
strictly between the markers fail to decode as UTF-8 JSON, `extract_config`
returns plain `None` — the same value as for absent markers, not a distinct
CorruptPayload error (the Python function catches the exception and returns
`None`; see the counterexample for the non-distinctness). -/
theorem claim_C5 (pre payload post : List Nat)
    (hpre : subFind CONFIG_MARKER_START pre = none)
    (hpay : subFind CONFIG_MARKER_END payload = none)
    (hdec : utf8Decode payload = none) :
    extract_config
      (pre ++ (CONFIG_MARKER_START ++ (payload ++ (CONFIG_MARKER_END ++ post)))) = none := by
  rw [extract_block pre payload post (noOccur_of_subFind_none start_ne_nil hpre)
    (noOccur_of_subFind_none end_ne_nil hpay), hdec]
  rfl

theorem claim_C5_witness :
    subFind CONFIG_MARKER_START [] = none ∧
    subFind CONFIG_MARKER_END [255] = none ∧
    utf8Decode [255] = none ∧
    extract_config
      ([] ++ (CONFIG_MARKER_START ++ ([255] ++ (CONFIG_MARKER_END ++ [])))) = none :=
  ⟨by decide, by decide, by decide, claim_C5 [] [255] [] (by decide) (by decide) (by decide)⟩

/-- C5 counterexample: a complete marker pair around an undecodable payload
byte and a byte sequence with no markers at all produce the very same result
`none`: the code does not distinguish CorruptPayload from NotFound. -/
theorem claim_C5_counterexample :
    extract_config (CONFIG_MARKER_START ++ ([255] ++ CONFIG_MARKER_END)) = none ∧
    extract_config [84, 80, 76] = none := by
  constructor
  · decide
  · decide

theorem toList_jarr (l : List Json) : JArr.toList (jarr l) = l := by
  induction l with
  | nil => rfl
  | cons x t ih => rw [jarr, JArr.toList, ih]

theorem asStrList_map (l : List (List Char)) : asStrList (l.map Json.str) = some l := by
  induction l with
  | nil => rfl
  | cons s t ih => rw [List.map_cons, asStrList, asStr, ih]; rfl

theorem mod_from_to (fresh : List Char) (m : ModConfigM) :
    ModConfigM.from_dict fresh (ModConfigM.to_dict m) = some m := rfl

theorem modsFromJson_map (fresh : Nat → List Char) (ms : List ModConfigM) : ∀ i,
    modsFromJson fresh i (ms.map ModConfigM.to_dict) = some ms := by
  induction ms with
  | nil => intro i; rfl
  | cons m t ih =>
    intro i
    rw [List.map_cons, modsFromJson, mod_from_to, Option.some_bind, ih]
    rfl

/-- C9 (confirmed): `from_dict ∘ to_dict` recovers every field exactly —
name, game_exe, description, version, the ordered mods list with each mod's
id, validation_files, default_locations, target_os, created — except
`updated`, which `to_dict` refreshes to the serialization-time `now`. -/
theorem claim_C9 (c : LauncherConfigM) (now nowc nowu : List Char)
    (fresh : Nat → List Char) :
    LauncherConfigM.from_dict fresh nowc nowu (LauncherConfigM.to_dict now c) =
      some { c with updated := now } := by
  have hm := modsFromJson_map fresh c.mods 0
  have hv := asStrList_map c.validation_files
  have hd := asStrList_map c.default_locations
  calc LauncherConfigM.from_dict fresh nowc nowu (LauncherConfigM.to_dict now c)
      = (modsFromJson fresh 0 (JArr.toList (jarr (c.mods.map ModConfigM.to_dict)))).bind
          (fun mods =>
          (asStrList (JArr.toList (jarr (c.validation_files.map Json.str)))).bind
          (fun validation_files =>
          (asStrList (JArr.toList (jarr (c.default_locations.map Json.str)))).bind
          (fun default_locations => some
            { name := c.name, game_exe := c.game_exe,
              description := c.description,
              version := c.version, mods := mods,
              validation_files := validation_files,
              default_locations := default_locations, target_os := c.target_os,
              created := c.created, updated := now }))) := rfl
    _ = some { c with updated := now } := by
        rw [toList_jarr, toList_jarr, toList_jarr, hm, hv, hd]
        rfl

/-- C10 (confirmed): adding a validation file that is already present leaves
the configuration entirely unchanged — no duplicate entry, every other field
untouched, and the `updated` timestamp not refreshed. -/
theorem claim_C10 (c : LauncherConfigM) (p now : List Char)
    (h : p ∈ c.validation_files) :
    LauncherConfigM.add_validation_file now c p = c := by
  rw [LauncherConfigM.add_validation_file, if_pos h]

theorem claim_C10_witness :
    toL "data/core.pak" ∈
      (LauncherConfigM.mk (toL "L") (toL "game.exe") [] (toL "1.0.0") []
        [toL "data/core.pak"] [] (toL "windows") (toL "t0") (toL "t1")).validation_files ∧
    LauncherConfigM.add_validation_file (toL "t2")
        (LauncherConfigM.mk (toL "L") (toL "game.exe") [] (toL "1.0.0") []
          [toL "data/core.pak"] [] (toL "windows") (toL "t0") (toL "t1"))
        (toL "data/core.pak") =
      LauncherConfigM.mk (toL "L") (toL "game.exe") [] (toL "1.0.0") []
        [toL "data/core.pak"] [] (toL "windows") (toL "t0") (toL "t1") :=
  ⟨by decide, claim_C10 _ _ _ (by decide)⟩

theorem errKeys_append (a b : List (List Char × List Char)) :
    errKeys (a ++ b) = errKeys a ++ errKeys b := List.map_append _ a b

theorem natDigits_inj {a b : Nat} (h : natDigits a = natDigits b) : a = b := by
  have hv := digitsVal_natDigits a
  rw [h, digitsVal_natDigits] at hv
  omega

theorem digit_block_cancel : ∀ (a b s t : List Char),
    (∀ c ∈ a, isDigitCh c = true) → (∀ c ∈ b, isDigitCh c = true) →
    (∀ c cs, s = c :: cs → isDigitCh c = false) →
    (∀ c cs, t = c :: cs → isDigitCh c = false) →
    a ++ s = b ++ t → a = b ∧ s = t := by
  intro a
  induction a with
  | nil =>
    intro b s t _ hb hs _ h
    cases b with
    | nil => simpa using h
    | cons d bs =>
      exfalso
      simp only [List.nil_append, List.cons_append] at h
      have hd : isDigitCh d = true := hb d (by simp)
      rw [hs d (bs ++ t) h] at hd
      cases hd
  | cons c as ih =>
    intro b s t ha hb hs ht h
    cases b with
    | nil =>
      exfalso
      simp only [List.cons_append, List.nil_append] at h
      have hc : isDigitCh c = true := ha c (by simp)
      rw [ht c (as ++ s) h.symm] at hc
      cases hc
    | cons d bs =>
      simp only [List.cons_append, List.cons.injEq] at h
      obtain ⟨rfl, h2⟩ := h
      obtain ⟨h3, h4⟩ := ih bs s t (fun x hx => ha x (by simp [hx]))
        (fun x hx => hb x (by simp [hx])) hs ht h2
      exact ⟨by rw [h3], h4⟩

theorem modKey_cancel {i j : Nat} {s t : List Char}
    (hs : ∀ c cs, s = c :: cs → isDigitCh c = false)
    (ht : ∀ c cs, t = c :: cs → isDigitCh c = false)
    (h : toL "mod_" ++ natDigits i ++ s = toL "mod_" ++ natDigits j ++ t) :
    i = j ∧ s = t := by
  rw [List.append_assoc, List.append_assoc] at h
  have h2 : natDigits i ++ s = natDigits j ++ t := by
    have := congrArg (List.drop (toL "mod_").length) h
    rwa [List.drop_left, List.drop_left] at this
  obtain ⟨h3, h4⟩ := digit_block_cancel _ _ _ _ (natDigits_all_digits i)
    (natDigits_all_digits j) hs ht h2
  exact ⟨natDigits_inj h3, h4⟩

theorem underscore_suffix_head (x : List Char) :
    ∀ c cs, ('_' :: x) = c :: cs → isDigitCh c = false := by
  intro c cs h
  injection h with h1 _
  rw [← h1]
  decide

theorem dlKey_inj {i j : Nat} (h : dlKey i = dlKey j) : i = j := by
  rw [dlKey, dlKey] at h
  exact (modKey_cancel (underscore_suffix_head (toL "download_url"))
    (underscore_suffix_head (toL "download_url")) h).1

theorem dlKey_ne_nameKey (i j : Nat) : dlKey i ≠ nameKey j := by
  intro h
  rw [dlKey, nameKey] at h
  have := (modKey_cancel (underscore_suffix_head (toL "download_url"))
    (underscore_suffix_head (toL "name")) h).2
  exact absurd this (by decide)

theorem dlKey_ne_tpKey (i j : Nat) : dlKey i ≠ tpKey j := by
  intro h
  rw [dlKey, tpKey] at h
  have := (modKey_cancel (underscore_suffix_head (toL "download_url"))
    (underscore_suffix_head (toL "target_path")) h).2
  exact absurd this (by decide)

theorem dlKey_ne_name_field (i : Nat) : dlKey i ≠ toL "name" := by
  intro h
  rw [show dlKey i = 'm' :: 'o' :: 'd' :: '_' :: (natDigits i ++ toL "_download_url")
    from rfl] at h
  injection h with h1 _
  exact absurd h1 (by decide)

theorem dlKey_ne_game_exe_field (i : Nat) : dlKey i ≠ toL "game_exe" := by
  intro h
  rw [show dlKey i = 'm' :: 'o' :: 'd' :: '_' :: (natDigits i ++ toL "_download_url")
    from rfl] at h
  injection h with h1 _
  exact absurd h1 (by decide)

theorem dlKey_ne_version_field (i : Nat) : dlKey i ≠ toL "version" := by
  intro h
  rw [show dlKey i = 'm' :: 'o' :: 'd' :: '_' :: (natDigits i ++ toL "_download_url")
    from rfl] at h
  injection h with h1 _
  exact absurd h1 (by decide)

theorem dlKey_ne_mods_field (i : Nat) : dlKey i ≠ toL "mods" := by
  intro h
  rw [show dlKey i = 'm' :: 'o' :: 'd' :: '_' :: (natDigits i ++ toL "_download_url")
    from rfl] at h
  injection h with h1 h
  injection h with h2 h
  injection h with h3 h
  injection h with h4 h
  exact absurd h4 (by decide)

theorem dlKey_ne_validation_files_field (i : Nat) : dlKey i ≠ toL "validation_files" := by
  intro h
  rw [show dlKey i = 'm' :: 'o' :: 'd' :: '_' :: (natDigits i ++ toL "_download_url")
    from rfl] at h
  injection h with h1 _
  exact absurd h1 (by decide)

theorem dlKey_ne_target_os_field (i : Nat) : dlKey i ≠ toL "target_os" := by
  intro h
  rw [show dlKey i = 'm' :: 'o' :: 'd' :: '_' :: (natDigits i ++ toL "_download_url")
    from rfl] at h
  injection h with h1 _
  exact absurd h1 (by decide)

theorem not_mem_errKeys_ite (k : List Char) (cond : Prop) [Decidable cond]
    (kv : List Char × List Char) (hne : k ≠ kv.1) :
    k ∉ errKeys (if cond then [kv] else []) := by
  intro hmem
  by_cases hc : cond
  · rw [if_pos hc] at hmem
    simp only [errKeys, List.map_cons, List.map_nil, List.mem_singleton] at hmem
    exact hne hmem
  · rw [if_neg hc] at hmem
    simp [errKeys] at hmem

theorem dlKey_mem_modErrors (i j : Nat) (m : ModConfigM) :
    dlKey i ∈ errKeys (modErrors j m) ↔ (i = j ∧ urlBad m = true) := by
  rw [modErrors, errKeys_append, errKeys_append]
  simp only [List.mem_append]
  constructor
  · rintro ((h | h) | h)
    · exact absurd h (not_mem_errKeys_ite _ _ _ (dlKey_ne_nameKey i j))
    · exact absurd h (not_mem_errKeys_ite _ _ _ (dlKey_ne_tpKey i j))
    · by_cases h3 : (pyStrip m.download_url).isEmpty
      · rw [if_pos h3] at h
        simp only [errKeys, List.map_cons, List.map_nil, List.mem_singleton] at h
        exact ⟨dlKey_inj h, by rw [urlBad, h3]; rfl⟩
      · rw [if_neg h3] at h
        by_cases h4 : is_valid_url m.download_url = false
        · rw [if_pos h4] at h
          simp only [errKeys, List.map_cons, List.map_nil, List.mem_singleton] at h
          exact ⟨dlKey_inj h, by rw [urlBad, h4]; simp⟩
        · rw [if_neg h4] at h
          simp [errKeys] at h
  · rintro ⟨rfl, hb⟩
    right
    rw [urlBad, Bool.or_eq_true] at hb
    by_cases h3 : (pyStrip m.download_url).isEmpty
    · rw [if_pos h3]
      simp [errKeys]
    · rw [if_neg h3]
      have h4 : is_valid_url m.download_url = false := by
        rcases hb with hb | hb
        · exact absurd hb h3
        · simpa using hb
      rw [if_pos h4]
      simp [errKeys]

theorem dlKey_mem_modsErrors (ms : List ModConfigM) : ∀ (j i : Nat),
    (dlKey i ∈ errKeys (modsErrors j ms) ↔
      ∃ k m, i = j + k ∧ ms[k]? = some m ∧ urlBad m = true) := by
  induction ms with
  | nil =>
    intro j i
    simp [modsErrors, errKeys]
  | cons m t ih =>
    intro j i
    rw [modsErrors, errKeys_append]
    simp only [List.mem_append]
    constructor
    · rintro (h | h)
      · obtain ⟨rfl, hb⟩ := (dlKey_mem_modErrors i j m).mp h
        exact ⟨0, m, by omega, by simp, hb⟩
      · obtain ⟨k, m', hik, hm', hb⟩ := (ih (j + 1) i).mp h
        exact ⟨k + 1, m', by omega, by simpa using hm', hb⟩
    · rintro ⟨k, m', hik, hm', hb⟩
      cases k with
      | zero =>
        left
        rw [List.getElem?_cons_zero] at hm'
        injection hm' with hm2
        subst hm2
        exact (dlKey_mem_modErrors i j m).mpr ⟨by omega, hb⟩
      | succ k' =>
        right
        rw [List.getElem?_cons_succ] at hm'
        exact (ih (j + 1) i).mpr ⟨k', m', by omega, hm', hb⟩

theorem pyStrip_empty_all {u : List Char} (h : (pyStrip u).isEmpty = true) :
    ∀ c ∈ u, isPyWs c = true := by
  rw [pyStrip, List.isEmpty_iff, List.reverse_eq_nil_iff,
    List.dropWhile_eq_nil_iff] at h
  intro c hc
  rw [← @List.takeWhile_append_dropWhile _ isPyWs u] at hc
  rcases List.mem_append.mp hc with h1 | h2
  · exact List.mem_takeWhile_imp h1
  · exact h c (List.mem_reverse.mpr h2)

theorem stripPre_ws_none {p0 : Char} (ps : List Char) {u : List Char}
    (hp0 : isPyWs p0 = false) (hu : ∀ c ∈ u, isPyWs c = true) :
    stripPre (p0 :: ps) u = none := by
  cases u with
  | nil => rfl
  | cons c r =>
    rw [stripPre, if_neg]
    intro hcp
    have hw := hu c (by simp)
    rw [hcp, hp0] at hw
    cases hw

theorem is_valid_url_stripEmpty {u : List Char}
    (h : (pyStrip u).isEmpty = true) : is_valid_url u = false := by
  have hall := pyStrip_empty_all h
  have hg : genericMatch u = false := by
    rw [genericMatch, schemeRest]
    rw [show toL "https://" = 'h' :: toL "ttps://" from rfl,
      stripPre_ws_none _ (by decide) hall]
    dsimp only
    rw [show toL "http://" = 'h' :: toL "ttp://" from rfl,
      stripPre_ws_none _ (by decide) hall]
    dsimp only
    rw [show toL "ftp://" = 'f' :: toL "tp://" from rfl,
      stripPre_ws_none _ (by decide) hall]
  have hd : gdriveMatch u = false := by
    rw [gdriveMatch]
    rw [show toL "https://drive.google.com/" = 'h' :: toL "ttps://drive.google.com/"
      from rfl, stripPre_ws_none _ (by decide) hall]
  have hb : dropboxMatch u = false := by
    rw [dropboxMatch]
    rw [show toL "https://www.dropbox.com/" = 'h' :: toL "ttps://www.dropbox.com/"
      from rfl, stripPre_ws_none _ (by decide) hall]
  rw [is_valid_url, hg, hd, hb]
  simp

theorem is_valid_url_eq (u : List Char) :
    is_valid_url u = (genericMatch u || gdriveMatch u || dropboxMatch u) := by
  rw [is_valid_url]
  cases hg : genericMatch u <;> cases hd : gdriveMatch u <;>
    cases hb : dropboxMatch u <;> simp

/-- C8 (confirmed): for the mod at index `i`, the validator's errors dict has
a `mod_{i}_download_url` key exactly when the download URL matches none of
the generic `(https?|ftp)` pattern, the Google Drive pattern and the Dropbox
pattern (a URL that is empty or whitespace matches none of them, and then
the requires-a-URL error carries that same key). -/
theorem claim_C8 (c : LauncherConfigM) (i : Nat) (m : ModConfigM)
    (hm : c.mods[i]? = some m) :
    (dlKey i ∈ errKeys (validate_config c) ↔
      (genericMatch m.download_url || gdriveMatch m.download_url ||
        dropboxMatch m.download_url) = false) := by
  have hbad : urlBad m = true ↔ is_valid_url m.download_url = false := by
    rw [urlBad, Bool.or_eq_true]
    constructor
    · rintro (h | h)
      · exact is_valid_url_stripEmpty h
      · simpa using h
    · intro h
      right
      simp [h]
  rw [validate_config]
  rw [errKeys_append, errKeys_append, errKeys_append, errKeys_append,
    errKeys_append, errKeys_append]
  simp only [List.mem_append]
  constructor
  · rintro ((((((h | h) | h) | h) | h) | h) | h)
    · exact absurd h (not_mem_errKeys_ite _ _ _ (dlKey_ne_name_field i))
    · exact absurd h (not_mem_errKeys_ite _ _ _ (dlKey_ne_game_exe_field i))
    · exact absurd h (not_mem_errKeys_ite _ _ _ (dlKey_ne_version_field i))
    · exact absurd h (not_mem_errKeys_ite _ _ _ (dlKey_ne_mods_field i))
    · obtain ⟨k, m', hik, hm', hb⟩ := (dlKey_mem_modsErrors c.mods 0 i).mp h
      have hki : k = i := by omega
      subst hki
      rw [hm] at hm'
      injection hm' with hm2
      subst hm2
      rw [← is_valid_url_eq]
      exact hbad.mp hb
    · exact absurd h (not_mem_errKeys_ite _ _ _ (dlKey_ne_validation_files_field i))
    · exact absurd h (not_mem_errKeys_ite _ _ _ (dlKey_ne_target_os_field i))
  · intro hval
    have hb : urlBad m = true := hbad.mpr (by rw [is_valid_url_eq]; exact hval)
    refine Or.inl (Or.inl (Or.inr ?_))
    exact (dlKey_mem_modsErrors c.mods 0 i).mpr ⟨i, m, by omega, hm, hb⟩

theorem claim_C8_witness :
    cfgW8.mods[0]? = some modW8 ∧
    (dlKey 0 ∈ errKeys (validate_config cfgW8) ↔
      (genericMatch modW8.download_url || gdriveMatch modW8.download_url ||
        dropboxMatch modW8.download_url) = false) :=
  ⟨by decide, claim_C8 cfgW8 0 modW8 (by decide)⟩

theorem pyLoop_of_ge {p : Nat} (h : 80 ≤ p) : ∀ n, pyLoop p n = [] := by
  intro n
  induction n with
  | zero => rfl
  | succ n ih => rw [pyLoop, if_neg (by omega), ih]

theorem pyLoop_range : ∀ (n p : Nat), p ≤ 80 →
    pyLoop p n = (List.range (min n (80 - p))).map (fun k => p + 1 + k) := by
  intro n
  induction n with
  | zero => intro p hp; simp [pyLoop]
  | succ n ih =>
    intro p hp
    by_cases h : p < 80
    · rw [pyLoop, if_pos h, ih (p + 1) (by omega)]
      have hmin : min (n + 1) (80 - p) = (min n (80 - (p + 1))) + 1 := by omega
      rw [hmin, List.range_succ_eq_map, List.map_cons, List.map_map]
      refine congrArg₂ List.cons rfl ?_
      apply List.map_congr_left
      intro x _
      simp [Function.comp]
      omega
    · have hp80 : p = 80 := by omega
      subst hp80
      rw [pyLoop, if_neg (by omega), pyLoop_of_ge (by omega)]
      simp

theorem pyLoop_chain : ∀ (n p : Nat), List.Chain' (· ≤ ·) (p :: pyLoop p n) := by
  intro n
  induction n with
  | zero => intro p; simp [pyLoop]
  | succ n ih =>
    intro p
    by_cases h : p < 80
    · rw [pyLoop, if_pos h]
      exact List.chain'_cons.mpr ⟨by omega, ih (p + 1)⟩
    · rw [pyLoop, if_neg h]
      exact ih p

theorem pyLoop_le : ∀ (n p : Nat), p ≤ 80 → ∀ x ∈ pyLoop p n, x ≤ 80 := by
  intro n
  induction n with
  | zero => intro p _ x hx; simp [pyLoop] at hx
  | succ n ih =>
    intro p hp x hx
    by_cases h : p < 80
    · rw [pyLoop, if_pos h] at hx
      rcases List.mem_cons.mp hx with rfl | hx2
      · omega
      · exact ih (p + 1) (by omega) x hx2
    · rw [pyLoop, if_neg h] at hx
      exact ih p hp x hx

theorem mem_of_getLast_aux : ∀ (l : List Nat) (x : Nat), l.getLast? = some x → x ∈ l := by
  intro l
  induction l with
  | nil => intro x h; cases h
  | cons a t ih =>
    intro x h
    cases t with
    | nil =>
      simp only [List.getLast?_singleton, Option.some.injEq] at h
      simp [h]
    | cons b t2 =>
      rw [List.getLast?_cons_cons] at h
      exact List.mem_cons_of_mem a (ih x h)

theorem build_trace_ok {env : BuildEnv} (h : (build_trace env).1 = true) :
    (build_trace env).2 =
      [5, 15, 30, 40] ++ (pyLoop 40 env.pyLines ++ [85, 90, 95, 100]) := by
  rw [build_trace] at h ⊢
  by_cases hs : env.scriptOk = false
  · rw [if_pos hs] at h
    cases h
  · rw [if_neg hs] at h ⊢
    dsimp only at h ⊢
    by_cases hr : (build_executable_trace env).1 = false
    · rw [if_pos hr] at h
      cases h
    · rw [if_neg hr] at h ⊢
      dsimp only
      rw [build_executable_trace] at hr ⊢
      by_cases h1 : env.returncode ≠ 0
      · rw [if_pos h1] at hr
        exact absurd rfl hr
      · rw [if_neg h1] at hr ⊢
        by_cases h2 : env.distExists = false
        · rw [if_pos h2] at hr
          exact absurd rfl hr
        · rw [if_neg h2] at hr ⊢
          dsimp only
          simp [List.append_assoc]

/-- C6 (corrected): a successful build reports the percents
`5, 15, 30, 40`, then one increment per PyInstaller output line (capped at
80), then `85, 90, 95, 100` — not the claimed five stages
`10, 30, 60, 80, 100`; the monotonicity half of the claim does hold: the
reported percent is non-decreasing within one invocation. -/
theorem claim_C6 (env : BuildEnv) (h : (build_trace env).1 = true) :
    (build_trace env).2 = [5, 15, 30, 40] ++
        ((List.range (min env.pyLines 40)).map (fun k => 41 + k) ++ [85, 90, 95, 100]) ∧
      List.Chain' (· ≤ ·) (build_trace env).2 := by
  have hsh := build_trace_ok h
  have hrange : pyLoop 40 env.pyLines =
      (List.range (min env.pyLines 40)).map (fun k => 41 + k) :=
    pyLoop_range env.pyLines 40 (by omega)
  constructor
  · rw [hsh, hrange]
  · rw [hsh]
    have hform : [5, 15, 30, 40] ++ (pyLoop 40 env.pyLines ++ [85, 90, 95, 100]) =
        [5, 15, 30] ++ ((40 :: pyLoop 40 env.pyLines) ++ [85, 90, 95, 100]) := by
      simp
    rw [hform]
    apply List.Chain'.append
    · norm_num [List.chain'_cons]
    · apply List.Chain'.append
      · exact pyLoop_chain _ 40
      · norm_num [List.chain'_cons]
      · intro x hx y hy
        have hxm : x ∈ 40 :: pyLoop 40 env.pyLines :=
          mem_of_getLast_aux _ x (Option.mem_def.mp hx)
        have hxle : x ≤ 80 := by
          rcases List.mem_cons.mp hxm with rfl | hx2
          · omega
          · exact pyLoop_le _ 40 (by omega) x hx2
        have hy85 : 85 = y := by simpa using hy
        omega
    · intro x hx y hy
      have hx30 : 30 = x := by simpa using hx
      have hy40 : 40 = y := by
        simp only [List.cons_append] at hy
        simpa using hy
      omega

theorem claim_C6_witness :
    (build_trace envW6).1 = true ∧
    ((build_trace envW6).2 = [5, 15, 30, 40] ++
        ((List.range (min envW6.pyLines 40)).map (fun k => 41 + k) ++ [85, 90, 95, 100]) ∧
      List.Chain' (· ≤ ·) (build_trace envW6).2) :=
  ⟨by decide, claim_C6 envW6 (by decide)⟩

/-- C6 counterexample: a fully successful build (no PyInstaller output lines)
reports `5, 15, 30, 40, 85, 90, 95, 100` — not the five claimed stage percents
`10, 30, 60, 80, 100`. -/
theorem claim_C6_counterexample :
    (build_trace envW6).1 = true ∧
    (build_trace envW6).2 = [5, 15, 30, 40, 85, 90, 95, 100] ∧
    (build_trace envW6).2 ≠ [10, 30, 60, 80, 100] := by
  decide

/-- C7 counterexample: initialization is total and resolves the very same
template path for a windows configuration and for one whose OS identifier is
unrecognized — no per-OS template mapping, and no TemplateNotFound failure
before embedding. -/
theorem claim_C7_counterexample :
    (builderInit (toL "T") cfgW8).template_path =
        (builderInit (toL "T") cfgAtariW).template_path ∧
      cfgW8.target_os ≠ cfgAtariW.target_os := by
  constructor
  · rfl
  · decide

/-- C7 (corrected): the resolved template path is the single fixed file
`launcher_template.py` under the template directory — identical for every
configuration and OS identifier, recognized or not — and `__init__` performs
no existence check and cannot fail; only the per-OS executable suffix of
`EXECUTABLE_EXTENSIONS` (applied later to the dist artifact name) is
platform-specific, with `""` as the default for unknown identifiers. -/
theorem claim_C7 (template_dir : List Char) (c c' : LauncherConfigM) :
    (builderInit template_dir c).template_path =
        pathJoin template_dir (toL "launcher_template.py") ∧
      (builderInit template_dir c).template_path =
        (builderInit template_dir c').template_path ∧
      executable_extension (toL "windows") = toL ".exe" ∧
      executable_extension (toL "macos") = toL ".app" ∧
      executable_extension (toL "linux") = [] ∧
      executable_extension (toL "atari") = [] := by
  refine ⟨rfl, rfl, ?_, ?_, ?_, ?_⟩ <;> decide

end LaunchForge
